import Mathlib

/-!
# Verification of the `rc` multiplayer raycasting game

Shallow embedding of the core of the repository:
* the authoritative game socket server (`src/server/src/GameSocketServer.ts`),
* the procedural level generator (`src/server/src/LevelGenerator.ts`),
* the DDA raycaster (`src/client/src/utils/Raycaster.ts`, DDA revision),
* the first-person renderer (`src/client/src/utils/FirstPersonRenderer.ts`).

JavaScript numbers are modelled as rationals (`ℚ`); `Math.random()` draws are
modelled as an explicit entropy list of rationals in `[0,1)`, one element per
call, threaded through the generator.  Unbounded `while` loops are modelled by
structural recursion on the remaining entropy, returning `Option` when the
entropy runs out, or by an explicit fuel argument with a proved sufficiency
bound.  Trigonometric functions (`Math.cos`, `Math.sin`, `Math.atan2`,
`Math.sqrt`, `Math.PI`) are modelled as oracle parameters, since the code only
combines their results arithmetically.
-/


namespace RC

/-- A 2D point/vector in world coordinates (`{x, y}` objects in the source). -/
structure Pt where
  x : ℚ
  y : ℚ
  deriving DecidableEq, Repr, Inhabited

/-- A collectible pickup `{x, y, type}` (`LevelGenerator.ts`). -/
structure Pickup where
  x : ℚ
  y : ℚ
  type : ℤ
  deriving DecidableEq, Repr

/-- A roster entry `{x, y, name}` pushed on join (`GameSocketServer.ts`). -/
structure PlayerEntry where
  x : ℚ
  y : ℚ
  name : String
  deriving DecidableEq, Repr

/-- A tile grid, row-major: `walls j i` is the code of row `j`, column `i`.
The source's `number[][]` array with in-place writes is embedded functionally;
each write becomes a pointwise override. -/
def Grid : Type := ℤ → ℤ → ℕ

/-- Write tile value `v` at row `j`, column `i` (`level[j][i] = v`). -/
def writeTile (g : Grid) (j i : ℤ) (v : ℕ) : Grid :=
  fun j' i' => if j' = j ∧ i' = i then v else g j' i'

/-- The level aggregate `{walls, pickups, spawnPoints, players}`
(`LevelData` in `LevelGenerator.ts`). -/
structure LevelData where
  walls : Grid
  pickups : List Pickup
  spawnPoints : List Pt
  players : List PlayerEntry

/-- A connected client session (`Client` in `GameSocketServer.ts`).
`isOpen` models `readyState === WebSocket.OPEN`; `name`/`position` are
`undefined` until the `join` message arrives, hence `Option`. -/
structure Client where
  id : String
  isOpen : Bool
  name : Option String
  position : Option Pt
  deriving DecidableEq, Repr

/-- Server-to-client messages relevant to the verified operations. -/
inductive Msg where
  | collectibles (ps : List Pickup)
  | spawnMsg (p : Pt)
  deriving DecidableEq, Repr

/-- The mutable state of `GameSocketServer`: the clients list, the single
authoritative level, and the spawn-point pool. -/
structure ServerState where
  clients : List Client
  currentLevel : Option LevelData
  spawnPointPool : List Pt

/-- The data of a `collect` message. -/
structure CollectData where
  x : ℚ
  y : ℚ
  type : ℤ
  deriving DecidableEq, Repr

/-- The `broadcast` method: send a message to every client whose socket is open
(`GameSocketServer.broadcast`). -/
def broadcastMsg (clients : List Client) (m : Msg) : List (String × Msg) :=
  (clients.filter (fun c => c.isOpen)).map (fun c => (c.id, m))

/-- Does a pickup match the collect report by exact coordinate + type
(the predicate inside `handleCollect`'s `filter`, un-negated)? -/
def pickupMatches (d : CollectData) (p : Pickup) : Prop :=
  p.x = d.x ∧ p.y = d.y ∧ p.type = d.type

instance (d : CollectData) (p : Pickup) : Decidable (pickupMatches d p) := by
  unfold pickupMatches; infer_instance

/-- The `handleCollect` handler: if a level exists, keep exactly the pickups that do not
match `(x, y, type)`, then broadcast the updated pickup list to all connected
clients.  Returns the new state and the list of `(clientId, message)` sends.
(The `ws` argument of the source is used only for logging and is omitted.) -/
def handleCollect (s : ServerState) (d : CollectData) :
    ServerState × List (String × Msg) :=
  match s.currentLevel with
  | none => (s, [])
  | some lvl =>
      let pickups' := lvl.pickups.filter (fun p => ¬ pickupMatches d p)
      let lvl' : LevelData := { lvl with pickups := pickups' }
      ({ s with currentLevel := some lvl' },
        broadcastMsg s.clients (Msg.collectibles pickups'))

/-- The `assignSpawnPoint` method: LIFO pop from the pool (`Array.prototype.pop` removes
the last element); an exhausted pool yields the default origin `{x:0, y:0}`. -/
def assignSpawnPoint (pool : List Pt) : Pt × List Pt :=
  if pool.isEmpty then (⟨0, 0⟩, pool) else (pool.getLastD ⟨0, 0⟩, pool.dropLast)

/-- The `join` branch of `handleMessage`: record the name, assign a spawn
point, set the client's position, append the player to the level roster and
send the spawn point back to the joining client. -/
def handleJoin (s : ServerState) (joiningId : String) (nm : String) :
    ServerState × List (String × Msg) :=
  let (sp, pool') := assignSpawnPoint s.spawnPointPool
  let clients' := s.clients.map (fun c =>
    if c.id = joiningId then { c with name := some nm, position := some sp } else c)
  let lvl' := s.currentLevel.map (fun lvl =>
    { lvl with players := lvl.players ++ [⟨sp.x, sp.y, nm⟩] })
  ({ clients := clients', currentLevel := lvl', spawnPointPool := pool' },
    [(joiningId, Msg.spawnMsg sp)])

/-- A sequence of joins, returning the final state and the spawn points
assigned in order. -/
def joinSeq (s : ServerState) : List (String × String) → ServerState × List Pt
  | [] => (s, [])
  | (cid, nm) :: rest =>
      let (s', _) := handleJoin s cid nm
      let sp := (assignSpawnPoint s.spawnPointPool).1
      let (s'', sps) := joinSeq s' rest
      (s'', sp :: sps)

/-- Remove the first client with the given id (`clients.splice(indexOf(ws), 1)`). -/
def removeFirstClient : List Client → String → List Client
  | [], _ => []
  | c :: rest, i => if c.id = i then rest else c :: removeFirstClient rest i

/-- The roster filter predicate of `removeClient`:
`player.name !== ws.name` with `ws.name : string | undefined`. -/
def nameDiffers (playerName : String) (wsName : Option String) : Prop :=
  match wsName with
  | none => True
  | some n => playerName ≠ n

instance (pn : String) (wn : Option String) : Decidable (nameDiffers pn wn) := by
  unfold nameDiffers; cases wn <;> infer_instance

/-- The `removeClient` handler: drop the client from the list; if no clients remain, null
the level and clear the pool; otherwise remove from the roster every player
whose name equals the disconnecting client's name. -/
def removeClient (s : ServerState) (ws : Client) : ServerState :=
  let clients' := removeFirstClient s.clients ws.id
  if clients'.isEmpty then
    { clients := clients', currentLevel := none, spawnPointPool := [] }
  else
    match s.currentLevel with
    | none => { s with clients := clients' }
    | some lvl =>
        { s with
          clients := clients',
          currentLevel := some
            { lvl with
              players := lvl.players.filter (fun p => nameDiffers p.name ws.name) } }

/-- The wall texture palette of `randomWallTexture`. -/
def wallTextures : List ℕ :=
  [2, 3, 11, 12, 20, 21, 29, 30, 38, 39, 47, 56, 65, 73, 74, 82, 83]

/-- The `randomWallTexture()` draw: `wallTextures[Math.floor(u * wallTextures.length)]`. -/
def randomWallTexture (u : ℚ) : ℕ :=
  wallTextures.getD (⌊u * (wallTextures.length : ℚ)⌋).toNat 0

/-- Draw `n` entropy values, returning them together with the rest. -/
def drawN : ℕ → List ℚ → Option (List ℚ × List ℚ)
  | 0, ent => some ([], ent)
  | _ + 1, [] => none
  | n + 1, u :: ent => (drawN n ent).map (fun p => (u :: p.1, p.2))

/-- A room `{x, y, w, h}` in tile coordinates, transient during generation. -/
structure Room where
  x : ℤ
  y : ℤ
  w : ℤ
  h : ℤ
  deriving DecidableEq, Repr

/-- The `isOverlapping` test: axis-aligned rectangle overlap test against placed rooms. -/
def isOverlapping (rooms : List Room) (x y w h : ℤ) : Bool :=
  rooms.any (fun r =>
    decide (x < r.x + r.w ∧ x + w > r.x ∧ y < r.y + r.h ∧ y + h > r.y))

/-- The `carveRoom` operation: zero every tile of the room rectangle that lies strictly
inside the map border.  The source's double `for` loop writes independent
tiles, so it is embedded as a single pointwise override. -/
def carveRoom (W H : ℤ) (g : Grid) (x y w h : ℤ) : Grid :=
  fun j i =>
    if x ≤ i ∧ i < x + w ∧ y ≤ j ∧ j < y + h ∧
        0 < i ∧ i < W - 1 ∧ 0 < j ∧ j < H - 1 then 0
    else g j i

/-- One `while` iteration count of `carveCorridor` is exactly
`|x2-x1| + |y2-y1|`; the loop is embedded with that step count.  Each step
moves `x` toward `x2` (or, once equal, `y` toward `y2`) and zeroes the tile
reached if it is strictly inside the border. -/
def corridorSteps (W H : ℤ) : ℕ → Grid → ℤ → ℤ → ℤ → ℤ → Grid
  | 0, g, _, _, _, _ => g
  | n + 1, g, x, y, x2, y2 =>
      if x = x2 ∧ y = y2 then g
      else
        let x' := if x ≠ x2 then (if x < x2 then x + 1 else x - 1) else x
        let y' := if x ≠ x2 then y else (if y < y2 then y + 1 else y - 1)
        let g' := if 0 < x' ∧ x' < W - 1 ∧ 0 < y' ∧ y' < H - 1 then
            writeTile g y' x' 0
          else g
        corridorSteps W H n g' x' y' x2 y2

/-- The `carveCorridor(x1, y1, x2, y2)` operation. -/
def carveCorridor (W H : ℤ) (g : Grid) (x1 y1 x2 y2 : ℤ) : Grid :=
  corridorSteps W H ((x2 - x1).natAbs + (y2 - y1).natAbs) g x1 y1 x2 y2

/-- The `connectRooms` pass: carve a corridor between the centers of each pair of
consecutive rooms (`rooms[i]` to `rooms[i+1]`). -/
def connectRooms (W H : ℤ) (g : Grid) (rooms : List Room) : Grid :=
  (rooms.zip rooms.tail).foldl
    (fun g' ab =>
      carveCorridor W H g'
        ⌊(ab.1.x : ℚ) + (ab.1.w : ℚ) / 2⌋ ⌊(ab.1.y : ℚ) + (ab.1.h : ℚ) / 2⌋
        ⌊(ab.2.x : ℚ) + (ab.2.w : ℚ) / 2⌋ ⌊(ab.2.y : ℚ) + (ab.2.h : ℚ) / 2⌋)
    g

/-- The room placement `do … while (isOverlapping(…) && attempts < 10)` loop.
The fuel starts at 10 and `attempts` (iterations completed so far, counting
the current one) is `10 - fuel`; the `fuel = 0` case is unreachable because
the loop exits at `attempts = 10`.  Returns the placed room (or `none` if the
attempt limit was hit) plus the remaining entropy. -/
def tryPlaceRoom (W H : ℤ) (rooms : List Room) :
    ℕ → List ℚ → Option (Option Room × List ℚ)
  | 0, ent => some (none, ent)
  | fuel + 1, u1 :: u2 :: u3 :: u4 :: rest =>
      let rw := ⌊u1 * ((W : ℚ) / 6)⌋ + 3
      let rh := ⌊u2 * ((H : ℚ) / 6)⌋ + 3
      let x := ⌊u3 * ((W : ℚ) - rw - 2)⌋ + 1
      let y := ⌊u4 * ((H : ℚ) - rh - 2)⌋ + 1
      let attempts := 10 - fuel
      if isOverlapping rooms x y rw rh ∧ attempts < 10 then
        tryPlaceRoom W H rooms fuel rest
      else
        some (if attempts < 10 then some ⟨x, y, rw, rh⟩ else none, rest)
  | _ + 1, _ => none

/-- The `for` loop over `numRooms` placement attempts, carving each placed
room and accumulating the room list in placement order. -/
def roomsLoop (W H : ℤ) :
    ℕ → List Room → Grid → List ℚ → Option (List Room × Grid × List ℚ)
  | 0, rooms, g, ent => some (rooms, g, ent)
  | n + 1, rooms, g, ent =>
      match tryPlaceRoom W H rooms 10 ent with
      | none => none
      | some (none, ent') => roomsLoop W H n rooms g ent'
      | some (some r, ent') =>
          roomsLoop W H n (rooms ++ [r]) (carveRoom W H g r.x r.y r.w r.h) ent'

/-- The spawn-point rejection sampler: draw `(x, y)` until the tile is open. -/
def sampleOpenTile (W H : ℤ) (g : Grid) : List ℚ → Option ((ℤ × ℤ) × List ℚ)
  | u1 :: u2 :: rest =>
      let x := ⌊u1 * (W : ℚ)⌋
      let y := ⌊u2 * (H : ℚ)⌋
      if g y x = 0 then some ((x, y), rest) else sampleOpenTile W H g rest
  | _ => none

/-- The spawn-point placement loop: `numPlayers` samples, each converted to
the world-coordinate tile center. -/
def spawnLoop (W H : ℤ) (T : ℚ) (g : Grid) :
    ℕ → List ℚ → Option (List Pt × List ℚ)
  | 0, ent => some ([], ent)
  | n + 1, ent =>
      match sampleOpenTile W H g ent with
      | none => none
      | some ((x, y), ent') =>
          match spawnLoop W H T g n ent' with
          | none => none
          | some (pts, ent'') =>
              some (⟨x * T + T / 2, y * T + T / 2⟩ :: pts, ent'')

/-- The pickup rejection sampler: additionally reject a sample whose *tile
corner* world coordinate `(x*T, y*T)` equals the coordinate of an
already-placed pickup — note the already-placed pickups store tile *centers*
`(x*T + T/2, y*T + T/2)`, exactly as in the source. -/
def samplePickupTile (W H : ℤ) (T : ℚ) (g : Grid) (pickups : List Pickup) :
    List ℚ → Option ((ℤ × ℤ) × List ℚ)
  | u1 :: u2 :: rest =>
      let x := ⌊u1 * (W : ℚ)⌋
      let y := ⌊u2 * (H : ℚ)⌋
      if g y x ≠ 0 ∨
          (pickups.any (fun p => decide (p.x = x * T ∧ p.y = y * T)) : Bool) then
        samplePickupTile W H T g pickups rest
      else some ((x, y), rest)
  | _ => none

/-- The pickup placement loop: `numPlayers * 2` samples, each given a random
type `Math.floor(u * 5)` and appended in placement order. -/
def pickupLoop (W H : ℤ) (T : ℚ) (g : Grid) :
    ℕ → List Pickup → List ℚ → Option (List Pickup × List ℚ)
  | 0, acc, ent => some (acc, ent)
  | n + 1, acc, ent =>
      match samplePickupTile W H T g acc ent with
      | none => none
      | some ((x, y), ent') =>
          match ent' with
          | [] => none
          | u3 :: ent'' =>
              pickupLoop W H T g n
                (acc ++ [⟨x * T + T / 2, y * T + T / 2, ⌊u3 * 5⌋⟩]) ent''

/-- The `generateLevel()` algorithm: fill each row with one random wall texture, place and
carve up to `⌊min(width, height) / 2⌋` rooms, connect consecutive rooms with
corridors, then place `numPlayers` spawn points and `numPlayers * 2` pickups
on open tiles. -/
def generateLevel (W H numPlayers : ℕ) (T : ℚ) (ent : List ℚ) :
    Option LevelData :=
  match drawN H ent with
  | none => none
  | some (rowDraws, ent1) =>
      let rowTexs := rowDraws.map randomWallTexture
      let g0 : Grid := fun j _ => rowTexs.getD j.toNat 0
      let numRooms := min W H / 2
      match roomsLoop (W : ℤ) (H : ℤ) numRooms [] g0 ent1 with
      | none => none
      | some (rooms, g1, ent2) =>
          let g2 := connectRooms (W : ℤ) (H : ℤ) g1 rooms
          match spawnLoop (W : ℤ) (H : ℤ) T g2 numPlayers ent2 with
          | none => none
          | some (spawns, ent3) =>
              match pickupLoop (W : ℤ) (H : ℤ) T g2 (numPlayers * 2) [] ent3 with
              | none => none
              | some (pickups, _) => some ⟨g2, pickups, spawns, []⟩

/-- A rational extended with `Infinity` and `NaN` (nonnegative uses only). -/
inductive XQ where
  | fin (q : ℚ)
  | inf
  | nan
  deriving DecidableEq, Repr

/-- IEEE addition on `XQ` (no `inf - inf` cases arise: both summands are
nonnegative). -/
def XQ.add : XQ → XQ → XQ
  | nan, _ => nan
  | _, nan => nan
  | fin a, fin b => fin (a + b)
  | _, _ => inf

/-- IEEE `<` on `XQ`: any comparison involving `NaN` is false. -/
def XQ.lt : XQ → XQ → Bool
  | fin a, fin b => decide (a < b)
  | fin _, inf => true
  | _, _ => false

/-- IEEE `q * Infinity` for the nonnegative factors arising in `sideDist`
initialisation: `0 * Infinity = NaN`, positive `* Infinity = Infinity`
(a negative factor cannot arise: the factor is a fractional part in `[0,1)`
or its complement in `(0,1]`). -/
def XQ.scaleInf (q : ℚ) : XQ := if q = 0 then nan else inf

/-- IEEE `deltaDist = Math.abs(1 / dir)`: `Infinity` when the component is zero. -/
def mkDelta (d : ℚ) : XQ := if d = 0 then XQ.inf else XQ.fin |1 / d|

/-- IEEE `factor * deltaDist`, the `sideDist` initialisation. -/
def mkSideDist (factor : ℚ) : XQ → XQ
  | XQ.fin r => XQ.fin (factor * r)
  | XQ.inf => XQ.scaleInf factor
  | XQ.nan => XQ.nan

/-- Outcome of the DDA `while (!hit)` loop: out-of-bounds miss, or the hit
tile's coordinates together with which axis was stepped last (`side`). -/
inductive DdaOut where
  | miss
  | hit (mapX mapY : ℤ) (side : ℕ)
  deriving DecidableEq, Repr

/-- The tile code read `this.level[mapY][mapX]` (guarded by the bounds check
in the loop; `getD` defaults are never reached in-bounds). -/
def tileAt (level : List (List ℤ)) (mapY mapX : ℤ) : ℤ :=
  (level.getD mapY.toNat []).getD mapX.toNat 0

/-- The DDA stepping loop of `castRay`: advance whichever axis has the
smaller side distance, then exit with a miss if the grid was left, or with a
hit if the entered tile's code is positive.  `fuel` bounds the iterations;
`none` means the fuel ran out (a sufficient bound is proved below). -/
def ddaLoop (level : List (List ℤ)) (deltaX deltaY : XQ) (stepX stepY : ℤ) :
    ℕ → XQ → XQ → ℤ → ℤ → Option DdaOut
  | 0, _, _, _, _ => none
  | fuel + 1, sideX, sideY, mapX, mapY =>
      let stepOnX := XQ.lt sideX sideY
      let sideX' := if stepOnX then XQ.add sideX deltaX else sideX
      let sideY' := if stepOnX then sideY else XQ.add sideY deltaY
      let mapX' := if stepOnX then mapX + stepX else mapX
      let mapY' := if stepOnX then mapY else mapY + stepY
      let side : ℕ := if stepOnX then 0 else 1
      if mapX' < 0 ∨ ((level.headD []).length : ℤ) ≤ mapX' ∨
          mapY' < 0 ∨ (level.length : ℤ) ≤ mapY' then
        some DdaOut.miss
      else if 0 < tileAt level mapY' mapX' then
        some (DdaOut.hit mapX' mapY' side)
      else
        ddaLoop level deltaX deltaY stepX stepY fuel sideX' sideY' mapX' mapY'

/-- The hit record of the DDA revision
(`src/client/src/types/RaycastStructs.ts` lines 6–23): position and tile
code only. -/
structure RaycastHit3 where
  x : ℚ
  y : ℚ
  tileType : ℤ
  deriving DecidableEq, Repr

/-- The `castRay(x, y, angle, length)` of the DDA revision.  The direction
`(dirX, dirY) = (cos angle, sin angle)` is passed in directly (the
trigonometric evaluation is the caller's); `rayLength` is accepted and, as in
the source, never used.  Result: `none` = fuel exhausted, `some none` = miss
(`undefined`), `some (some h)` = hit. -/
def castRayDda (level : List (List ℤ)) (tileSize : ℚ)
    (x y dirX dirY rayLength : ℚ) (fuel : ℕ) : Option (Option RaycastHit3) :=
  let mapX : ℤ := ⌊x / tileSize⌋
  let mapY : ℤ := ⌊y / tileSize⌋
  let deltaX := mkDelta dirX
  let deltaY := mkDelta dirY
  let stepX : ℤ := if dirX < 0 then -1 else 1
  let stepY : ℤ := if dirY < 0 then -1 else 1
  let sideX := if dirX < 0 then mkSideDist (x / tileSize - mapX) deltaX
    else mkSideDist ((mapX : ℚ) + 1 - x / tileSize) deltaX
  let sideY := if dirY < 0 then mkSideDist (y / tileSize - mapY) deltaY
    else mkSideDist ((mapY : ℚ) + 1 - y / tileSize) deltaY
  match ddaLoop level deltaX deltaY stepX stepY fuel sideX sideY mapX mapY with
  | none => none
  | some DdaOut.miss => some none
  | some (DdaOut.hit mX mY side) =>
      let perpWallDist : ℚ :=
        if side = 0 then ((mX : ℚ) - x / tileSize + (1 - (stepX : ℚ)) / 2) / dirX
        else ((mY : ℚ) - y / tileSize + (1 - (stepY : ℚ)) / 2) / dirY
      some (some ⟨x + perpWallDist * dirX, y + perpWallDist * dirY,
        tileAt level mY mX⟩)

/-- The spec's `RaycastHit` data model `{point, distance, normal, angle,
tileCode}` (§3; declared in the repository's newer `RaycastStructs` revision,
whose producing `castRay` revision is not in the source tree). -/
structure SpecRaycastHit where
  point : Pt
  distance : ℚ
  normal : Pt
  angle : ℚ
  tileCode : ℤ
  deriving DecidableEq, Repr

/-- Modelled from the spec: the current `castRay` revision — the one
consumed by `FirstPersonRenderer.ts` and `Player.ts`, which is missing from
the source tree (only its callers and the `RaycastHit {point, distance,
normal, angle, collider}` declaration are present).  Per §4.1: DDA grid
traversal recording the stepped axis (`side`), perpendicular distance by the
standard DDA formula in world units, hit point `origin + distance *
direction`, and an axis-aligned unit normal on the struck face pointing back
against the step direction (facing the ray origin). -/
def castRayModel (level : List (List ℤ)) (tileSize : ℚ)
    (x y dirX dirY angle : ℚ) (fuel : ℕ) : Option (Option SpecRaycastHit) :=
  let mapX : ℤ := ⌊x / tileSize⌋
  let mapY : ℤ := ⌊y / tileSize⌋
  let deltaX := mkDelta dirX
  let deltaY := mkDelta dirY
  let stepX : ℤ := if dirX < 0 then -1 else 1
  let stepY : ℤ := if dirY < 0 then -1 else 1
  let sideX := if dirX < 0 then mkSideDist (x / tileSize - mapX) deltaX
    else mkSideDist ((mapX : ℚ) + 1 - x / tileSize) deltaX
  let sideY := if dirY < 0 then mkSideDist (y / tileSize - mapY) deltaY
    else mkSideDist ((mapY : ℚ) + 1 - y / tileSize) deltaY
  match ddaLoop level deltaX deltaY stepX stepY fuel sideX sideY mapX mapY with
  | none => none
  | some DdaOut.miss => some none
  | some (DdaOut.hit mX mY side) =>
      let perpTiles : ℚ :=
        if side = 0 then ((mX : ℚ) - x / tileSize + (1 - (stepX : ℚ)) / 2) / dirX
        else ((mY : ℚ) - y / tileSize + (1 - (stepY : ℚ)) / 2) / dirY
      let dist := perpTiles * tileSize
      let nrm : Pt := if side = 0 then ⟨-(stepX : ℚ), 0⟩ else ⟨0, -(stepY : ℚ)⟩
      some (some ⟨⟨x + dist * dirX, y + dist * dirY⟩, dist, nrm, angle,
        tileAt level mY mX⟩)

/-- Phaser texture frame metadata used by the renderer. -/
structure Frame where
  width : ℚ
  height : ℚ
  cutX : ℚ
  cutY : ℚ
  deriving DecidableEq, Repr

/-- The object returned by the current `castRay(position, direction,
maxDist)` revision: the cast's distance and an optional hit. -/
structure RayR where
  distance : ℚ
  hit : Option SpecRaycastHit

/-- Oracle bundle for the renderer's external collaborators. -/
structure RenderEnv where
  cosF : ℚ → ℚ
  sinF : ℚ → ℚ
  atan2F : ℚ → ℚ → ℚ
  sqrtF : ℚ → ℚ
  piQ : ℚ
  raycast : Pt → Pt → ℚ → RayR
  tilesFrame : ℤ → Option Frame
  collectiblesFrame : ℤ → Option Frame
  playerFrame : Option Frame
  tileSize : ℚ

/-- A wall strip draw command emitted by the per-column loop of `update`,
recording the column, the ray angle used, and the drawn geometry. -/
structure WallStrip where
  col : ℕ
  rayAngle : ℚ
  texIndex : ℤ
  textureX : ℚ
  destY : ℚ
  height : ℚ

/-- The body of the per-column wall loop for column `k`: ray angle
`playerAngle - fov/2 + k * (fov / screenWidth)`, cast, fisheye correction by
`cos(playerAngle - currentAngle)`, wall height `screenHeight /
perpendicularDistance` clamped to the screen, and texture column from
`wallX`.  `none` when the ray misses or the tile's texture frame is absent. -/
def wallStrip (env : RenderEnv) (viewDistance viewAngle : ℚ) (W : ℕ) (H : ℚ)
    (pos : Pt) (pangle : ℚ) (k : ℕ) : Option WallStrip :=
  let fov := viewAngle * (env.piQ / 180)
  let stepAngle := fov / (W : ℚ)
  let ca := pangle - fov / 2 + (k : ℚ) * stepAngle
  let dir : Pt := ⟨env.cosF ca, env.sinF ca⟩
  let ray := env.raycast pos dir (viewDistance / env.tileSize)
  match ray.hit with
  | none => none
  | some h =>
      match env.tilesFrame h.tileCode with
      | none => none
      | some frame =>
          let perpendicularDistance := ray.distance * env.cosF (pangle - ca)
          let wallHeight := H / perpendicularDistance
          let clampedWallHeight := min wallHeight H
          let wallX0 := if h.normal.x ≠ 0 then
              pos.y / env.tileSize + perpendicularDistance * dir.y
            else pos.x / env.tileSize + perpendicularDistance * dir.x
          let wallX := |wallX0 - ⌊wallX0⌋|
          let tX0 := wallX * frame.width
          let tX := if h.normal.x = 1 ∨ h.normal.y = -1 then
              frame.width - tX0 - 1
            else tX0
          some ⟨k, ca, h.tileCode, tX, (H - clampedWallHeight) / 2,
            clampedWallHeight⟩

/-- The per-column wall loop of `update`: one ray per screen column.  The
source accumulates `currentAngle += stepAngle`; in exact rational arithmetic
the angle at column `k` is `startAngle + k * stepAngle`. -/
def wallPass (env : RenderEnv) (viewDistance viewAngle : ℚ) (W : ℕ) (H : ℚ)
    (pos : Pt) (pangle : ℚ) : List WallStrip :=
  (List.range W).filterMap (wallStrip env viewDistance viewAngle W H pos pangle)

/-- The `{inView, screenX, spriteHeight}` record returned by `isInView`. -/
structure SpriteView where
  inView : Bool
  screenX : ℚ
  spriteHeight : ℚ
  deriving Repr

/-- The `isInView` test: occlusion raycast toward the object, angular gate against
half the field of view, distance gate against `viewDistance`, linear mapping
of the angular offset to a screen column, and sprite height
`screenHeight / (distance / 10)` floored at 30. -/
def isInView (env : RenderEnv) (viewDistance viewAngle : ℚ) (objPos pos : Pt)
    (pangle : ℚ) (W H : ℚ) : SpriteView :=
  let dx := objPos.x - pos.x
  let dy := objPos.y - pos.y
  let distanceInWorldUnits := env.sqrtF (dx * dx + dy * dy)
  let mag := env.sqrtF (dx * dx + dy * dy)
  let dir : Pt := ⟨dx / mag, dy / mag⟩
  let ray := env.raycast pos dir (distanceInWorldUnits / env.tileSize)
  if ray.hit.isSome then ⟨false, 0, 0⟩
  else
    let angleToPlayer := env.atan2F dy dx
    let d0 := pangle - angleToPlayer
    let angleDifference :=
      if d0 > env.piQ then d0 - 2 * env.piQ
      else if d0 < -env.piQ then d0 + 2 * env.piQ
      else d0
    let fov := viewAngle * (env.piQ / 180)
    let halfFov := fov / 2
    if |angleDifference| < halfFov ∧ distanceInWorldUnits < viewDistance then
      ⟨true, W / 2 - (angleDifference / fov) * W,
        max (H / (distanceInWorldUnits / 10)) 30⟩
    else ⟨false, 0, 0⟩

/-- A sprite draw command, recording the sprite's world distance from the
viewer along with the drawn geometry. -/
structure SpriteDraw where
  dist : ℚ
  screenX : ℚ
  height : ℚ
  deriving DecidableEq, Repr

/-- The viewer-to-object distance computed inside `isInView`. -/
def spriteDistance (env : RenderEnv) (objPos pos : Pt) : ℚ :=
  env.sqrtF ((objPos.x - pos.x) * (objPos.x - pos.x) +
    (objPos.y - pos.y) * (objPos.y - pos.y))

/-- The `renderCollectibles` pass: iterate the collectibles *in list order*, skipping
those without a sprite frame or not in view, and draw each survivor. -/
def renderCollectibles (env : RenderEnv) (viewDistance viewAngle : ℚ)
    (pos : Pt) (pangle : ℚ) (W H : ℚ) (cs : List Pickup) : List SpriteDraw :=
  cs.filterMap (fun c =>
    match env.collectiblesFrame c.type with
    | none => none
    | some _ =>
        let v := isInView env viewDistance viewAngle ⟨c.x, c.y⟩ pos pangle W H
        if v.inView then
          some ⟨spriteDistance env ⟨c.x, c.y⟩ pos, v.screenX, v.spriteHeight⟩
        else none)

/-- The `renderPlayers` pass: same, over the player roster in list order. -/
def renderPlayers (env : RenderEnv) (viewDistance viewAngle : ℚ)
    (pos : Pt) (pangle : ℚ) (W H : ℚ) (ps : List PlayerEntry) :
    List SpriteDraw :=
  ps.filterMap (fun p =>
    match env.playerFrame with
    | none => none
    | some _ =>
        let v := isInView env viewDistance viewAngle ⟨p.x, p.y⟩ pos pangle W H
        if v.inView then
          some ⟨spriteDistance env ⟨p.x, p.y⟩ pos, v.screenX, v.spriteHeight⟩
        else none)

/-- The sprite compositing order of one `update` frame:
`renderCollectibles` first, then `renderPlayers`, each in list order. -/
def spriteDrawOrder (env : RenderEnv) (viewDistance viewAngle : ℚ)
    (pos : Pt) (pangle : ℚ) (W H : ℚ) (cs : List Pickup)
    (ps : List PlayerEntry) : List SpriteDraw :=
  renderCollectibles env viewDistance viewAngle pos pangle W H cs ++
    renderPlayers env viewDistance viewAngle pos pangle W H ps

/-! ## Validity predicates, measures and concrete instances -/

/-- Entropy validity: every `Math.random()` draw lies in `[0, 1)`. -/
def validEnt (ent : List ℚ) : Prop := ∀ u ∈ ent, 0 ≤ u ∧ u < 1

instance (ent : List ℚ) : Decidable (validEnt ent) := by
  unfold validEnt; infer_instance

/-- World coordinates at the center of an in-bounds open tile. -/
def onOpenCenter (W H : ℕ) (T : ℚ) (g : Grid) (cx cy : ℚ) : Prop :=
  ∃ tx ty : ℤ, 0 ≤ tx ∧ tx < (W : ℤ) ∧ 0 ≤ ty ∧ ty < (H : ℤ) ∧
    cx = tx * T + T / 2 ∧ cy = ty * T + T / 2 ∧ g ty tx = 0

/-- Border solidity: the outermost ring of tiles is non-zero. -/
def borderSolid (W H : ℕ) (g : Grid) : Prop :=
  (∀ i : ℕ, i < W → g 0 (i : ℤ) ≠ 0 ∧ g ((H : ℤ) - 1) (i : ℤ) ≠ 0) ∧
  (∀ j : ℕ, j < H → g (j : ℤ) 0 ≠ 0 ∧ g (j : ℤ) ((W : ℤ) - 1) ≠ 0)

/-- Is `(j, i)` on the outermost ring of a `W × H` grid? -/
def onBorder (W H : ℤ) (j i : ℤ) : Prop :=
  j = 0 ∨ j = H - 1 ∨ i = 0 ∨ i = W - 1

/-- Remaining in-bounds steps of the DDA traversal: how many steps each axis
can take before leaving the grid, given monotone stepping directions. -/
def ddaMeasure (w h stepX stepY mapX mapY : ℤ) : ℕ :=
  (if stepX < 0 then (mapX + 1).toNat else (w - mapX).toNat) +
  (if stepY < 0 then (mapY + 1).toNat else (h - mapY).toNat)

def lvl0 : LevelData := ⟨fun _ _ => 0, [⟨192, 192, 0⟩], [], []⟩

def s0 : ServerState :=
  ⟨[⟨"a", true, some "A", none⟩, ⟨"b", true, some "B", none⟩], some lvl0, []⟩

def d0 : CollectData := ⟨192, 192, 0⟩

def s5 : ServerState :=
  ⟨[⟨"a", true, none, none⟩, ⟨"b", true, none, none⟩], none, [⟨5, 5⟩, ⟨5, 5⟩]⟩

def sW : ServerState :=
  ⟨[], some lvl0, [⟨1, 1⟩, ⟨2, 2⟩, ⟨3, 3⟩]⟩

def csW : List (String × String) := [("a", "A"), ("b", "B"), ("c", "C"), ("d", "D")]

def cs3 : List (String × String) := [("a", "A"), ("b", "B"), ("c", "C")]

-- ### C1

def wsX : Client := ⟨"a", true, some "dup", none⟩

def lvl10 : LevelData :=
  ⟨fun _ _ => 0, [⟨1, 2, 3⟩], [⟨4, 4⟩],
   [⟨1, 1, "dup"⟩, ⟨2, 2, "dup"⟩, ⟨3, 3, "x"⟩]⟩

def s10 : ServerState :=
  ⟨[wsX, ⟨"b", true, some "x", none⟩], some lvl10, [⟨9, 9⟩]⟩

/-- Concrete entropy stream for an 8×8, one-player generation: one always
placeable room at (1,1) of size 3×3, three skipped rooms, then spawn and both
pickups sampled at tile (1,1) with type draw 0. -/
def entG : List ℚ :=
  List.replicate 8 0 ++ [0, 0, 0, 0] ++ List.replicate 120 0 ++
    [1/8, 1/8] ++ [1/8, 1/8, 0] ++ [1/8, 1/8, 0]

/-- The level produced by the concrete entropy stream `entG`. -/
def lvlG : LevelData :=
  (generateLevel 8 8 1 128 entG).getD ⟨fun _ _ => 0, [], [], []⟩

/-- The concrete hit produced by the spec-modelled `castRay` on `levelC`. -/
def hitG : SpecRaycastHit := ⟨⟨384, 192⟩, 256, ⟨-1, 0⟩, 0, 5⟩

/-- A small level: one open row flanked by solid rows, solid tile of code 5
at column 3. -/
def levelC : List (List ℤ) := [[1, 1, 1, 1], [1, 0, 0, 5], [1, 1, 1, 1]]

/-- A 64×64 texture frame. -/
def frA : Frame := ⟨64, 64, 0, 0⟩

/-- Square-root oracle agreeing with `Math.sqrt` on the two distances of the
concrete scene (4096 → 64, 25600 → 160). -/
def sqrtTbl : ℚ → ℚ := fun q => if q = 4096 then 64 else if q = 25600 then 160 else 0

/-- Renderer oracle for the concrete sprite-ordering scene: straight-ahead
trigonometry, all-open occlusion raycast, all sprite frames present. -/
def envC7 : RenderEnv :=
  ⟨fun _ => 1, fun _ => 0, fun _ _ => 0, sqrtTbl, 3,
   fun _ _ _ => ⟨0, none⟩, fun _ => some frA, fun _ => some frA, some frA, 128⟩

/-- Renderer oracle for the wall-pass witness: constant cosine 1 (even),
every cast hits at distance 2, all tile frames present. -/
def envC8 : RenderEnv :=
  ⟨fun _ => 1, fun _ => 0, fun _ _ => 0, fun _ => 0, 3,
   fun _ _ _ => ⟨2, some hitG⟩, fun _ => some frA, fun _ => some frA,
   some frA, 128⟩

/-! ## Helper lemmas -/

lemma floor_mul_bounds {u : ℚ} {n : ℤ} (hn : 0 < n) (h0 : 0 ≤ u) (h1 : u < 1) :
    0 ≤ ⌊u * (n : ℚ)⌋ ∧ ⌊u * (n : ℚ)⌋ < n := by
  constructor
  · exact Int.floor_nonneg.mpr (mul_nonneg h0 (by exact_mod_cast hn.le))
  · rw [Int.floor_lt]
    calc u * (n : ℚ) < 1 * (n : ℚ) := by
          exact mul_lt_mul_of_pos_right h1 (by exact_mod_cast hn)
      _ = (n : ℚ) := one_mul _

lemma randomWallTexture_ne_zero {u : ℚ} (h0 : 0 ≤ u) (h1 : u < 1) :
    randomWallTexture u ≠ 0 := by
  have hb : 0 ≤ ⌊u * (((wallTextures.length : ℤ)) : ℚ)⌋ ∧
      ⌊u * (((wallTextures.length : ℤ)) : ℚ)⌋ < (wallTextures.length : ℤ) :=
    floor_mul_bounds (by decide) h0 h1
  have hcast : (((wallTextures.length : ℤ)) : ℚ) = (wallTextures.length : ℚ) := by
    push_cast
    rfl
  rw [hcast] at hb
  have hlt : (⌊u * (wallTextures.length : ℚ)⌋).toNat < wallTextures.length := by
    omega
  have key : ∀ k, k < wallTextures.length → wallTextures.getD k 0 ≠ 0 := by
    decide
  exact key _ hlt

lemma drawN_spec {n : ℕ} {ent us rest : List ℚ}
    (h : drawN n ent = some (us, rest)) (hval : validEnt ent) :
    us.length = n ∧ (∀ u ∈ us, 0 ≤ u ∧ u < 1) ∧ validEnt rest := by
  induction n generalizing ent us rest with
  | zero =>
      simp only [drawN, Option.some_inj] at h
      cases h
      exact ⟨rfl, by simp, by simpa using hval⟩
  | succ m ih =>
      match ent with
      | [] => simp [drawN] at h
      | u :: ent' =>
          simp only [drawN, Option.map_eq_some'] at h
          obtain ⟨⟨us', rest'⟩, hrec, heq⟩ := h
          cases heq
          have hval' : validEnt ent' := fun v hv => hval v (List.mem_cons_of_mem _ hv)
          obtain ⟨hlen, hmem, hrest⟩ := ih hrec hval'
          refine ⟨by simp [hlen], ?_, hrest⟩
          intro v hv
          rcases List.mem_cons.mp hv with rfl | hv'
          · exact hval v (List.mem_cons_self v ent')
          · exact hmem v hv'

lemma sampleOpenTile_spec {W H : ℤ} {g : Grid} (hW : 0 < W) (hH : 0 < H)
    (ent : List ℚ) :
    ∀ {rest : List ℚ} {x y : ℤ},
      sampleOpenTile W H g ent = some ((x, y), rest) → validEnt ent →
      0 ≤ x ∧ x < W ∧ 0 ≤ y ∧ y < H ∧ g y x = 0 ∧ validEnt rest := by
  induction ent using sampleOpenTile.induct W H g with
  | case1 u1 u2 rest' =>
      rename_i hopen0
      intro rest x y h hval
      have hopen : g ⌊u2 * (H : ℚ)⌋ ⌊u1 * (W : ℚ)⌋ = 0 := hopen0
      simp only [sampleOpenTile, if_pos hopen, Option.some_inj] at h
      obtain ⟨h1, h2⟩ := Prod.mk.injEq .. ▸ h
      obtain ⟨hx, hy⟩ := Prod.mk.injEq .. ▸ h1
      subst hx; subst hy; subst h2
      have hu1 := hval u1 (by simp)
      have hu2 := hval u2 (by simp)
      obtain ⟨hx0, hx1⟩ := floor_mul_bounds hW hu1.1 hu1.2
      obtain ⟨hy0, hy1⟩ := floor_mul_bounds hH hu2.1 hu2.2
      exact ⟨hx0, hx1, hy0, hy1, hopen, fun v hv => hval v (by simp [hv])⟩
  | case2 u1 u2 rest' =>
      rename_i hopen0 ih
      intro rest x y h hval
      have hopen : ¬ g ⌊u2 * (H : ℚ)⌋ ⌊u1 * (W : ℚ)⌋ = 0 := hopen0
      simp only [sampleOpenTile, if_neg hopen] at h
      exact ih h (fun v hv => hval v (by simp [hv]))
  | case3 t hshape =>
      intro rest x y h hval
      match t, hshape with
      | [], _ => simp [sampleOpenTile] at h
      | [u], _ => simp [sampleOpenTile] at h
      | u1 :: u2 :: r, hs => exact absurd rfl (hs u1 u2 r)

lemma spawnLoop_spec {W H : ℤ} {T : ℚ} {g : Grid} (hW : 0 < W) (hH : 0 < H)
    {n : ℕ} :
    ∀ {ent rest : List ℚ} {pts : List Pt},
      spawnLoop W H T g n ent = some (pts, rest) → validEnt ent →
      (∀ p ∈ pts, ∃ tx ty : ℤ, 0 ≤ tx ∧ tx < W ∧ 0 ≤ ty ∧ ty < H ∧
          p.x = tx * T + T / 2 ∧ p.y = ty * T + T / 2 ∧ g ty tx = 0) ∧
      validEnt rest := by
  induction n with
  | zero =>
      intro ent rest pts h hval
      simp only [spawnLoop, Option.some_inj] at h
      cases h
      exact ⟨by simp, hval⟩
  | succ m ih =>
      intro ent rest pts h hval
      simp only [spawnLoop] at h
      cases hs : sampleOpenTile W H g ent with
      | none => rw [hs] at h; simp at h
      | some pr =>
          obtain ⟨⟨x, y⟩, ent'⟩ := pr
          rw [hs] at h
          dsimp only at h
          cases hr : spawnLoop W H T g m ent' with
          | none => rw [hr] at h; simp at h
          | some pr2 =>
              obtain ⟨pts', ent''⟩ := pr2
              rw [hr] at h
              dsimp only at h
              simp only [Option.some_inj] at h
              obtain ⟨h1, h2⟩ := Prod.mk.injEq .. ▸ h
              subst h2
              obtain ⟨hx0, hx1, hy0, hy1, hop, hval'⟩ :=
                sampleOpenTile_spec hW hH ent hs hval
              obtain ⟨hmem, hval''⟩ := ih hr hval'
              subst h1
              refine ⟨?_, hval''⟩
              intro p hp
              rcases List.mem_cons.mp hp with rfl | hp'
              · exact ⟨x, y, hx0, hx1, hy0, hy1, rfl, rfl, hop⟩
              · exact hmem p hp'

lemma samplePickupTile_spec {W H : ℤ} {T : ℚ} {g : Grid} {ps : List Pickup}
    (hW : 0 < W) (hH : 0 < H) (ent : List ℚ) :
    ∀ {rest : List ℚ} {x y : ℤ},
      samplePickupTile W H T g ps ent = some ((x, y), rest) → validEnt ent →
      0 ≤ x ∧ x < W ∧ 0 ≤ y ∧ y < H ∧ g y x = 0 ∧ validEnt rest := by
  induction ent using samplePickupTile.induct W H T g ps with
  | case1 u1 u2 rest' =>
      rename_i hrej ih
      intro rest x y h hval
      have hrej' : (g ⌊u2 * (H : ℚ)⌋ ⌊u1 * (W : ℚ)⌋ ≠ 0 ∨
          (ps.any (fun p =>
            decide (p.x = ⌊u1 * (W : ℚ)⌋ * T ∧ p.y = ⌊u2 * (H : ℚ)⌋ * T)) : Bool)) :=
        hrej
      simp only [samplePickupTile, if_pos hrej'] at h
      exact ih h (fun v hv => hval v (by simp [hv]))
  | case2 u1 u2 rest' =>
      rename_i hrej
      intro rest x y h hval
      have hrej' : ¬ (g ⌊u2 * (H : ℚ)⌋ ⌊u1 * (W : ℚ)⌋ ≠ 0 ∨
          (ps.any (fun p =>
            decide (p.x = ⌊u1 * (W : ℚ)⌋ * T ∧ p.y = ⌊u2 * (H : ℚ)⌋ * T)) : Bool)) :=
        hrej
      simp only [samplePickupTile, if_neg hrej', Option.some_inj] at h
      obtain ⟨h1, h2⟩ := Prod.mk.injEq .. ▸ h
      obtain ⟨hx, hy⟩ := Prod.mk.injEq .. ▸ h1
      subst hx; subst hy; subst h2
      have hu1 := hval u1 (by simp)
      have hu2 := hval u2 (by simp)
      obtain ⟨hx0, hx1⟩ := floor_mul_bounds hW hu1.1 hu1.2
      obtain ⟨hy0, hy1⟩ := floor_mul_bounds hH hu2.1 hu2.2
      have hop : g ⌊u2 * (H : ℚ)⌋ ⌊u1 * (W : ℚ)⌋ = 0 := by
        by_contra hne
        exact hrej' (Or.inl hne)
      exact ⟨hx0, hx1, hy0, hy1, hop, fun v hv => hval v (by simp [hv])⟩
  | case3 t hshape =>
      intro rest x y h hval
      match t, hshape with
      | [], _ => simp [samplePickupTile] at h
      | [u], _ => simp [samplePickupTile] at h
      | u1 :: u2 :: r, hs => exact absurd rfl (hs u1 u2 r)

lemma pickupLoop_spec {W H : ℤ} {T : ℚ} {g : Grid} (hW : 0 < W) (hH : 0 < H)
    {n : ℕ} :
    ∀ {acc : List Pickup} {ent rest : List ℚ} {out : List Pickup},
      pickupLoop W H T g n acc ent = some (out, rest) → validEnt ent →
      (∀ p ∈ acc, ∃ tx ty : ℤ, 0 ≤ tx ∧ tx < W ∧ 0 ≤ ty ∧ ty < H ∧
          p.x = tx * T + T / 2 ∧ p.y = ty * T + T / 2 ∧ g ty tx = 0) →
      (∀ p ∈ out, ∃ tx ty : ℤ, 0 ≤ tx ∧ tx < W ∧ 0 ≤ ty ∧ ty < H ∧
          p.x = tx * T + T / 2 ∧ p.y = ty * T + T / 2 ∧ g ty tx = 0) := by
  induction n with
  | zero =>
      intro acc ent rest out h hval hacc
      simp only [pickupLoop, Option.some_inj] at h
      cases h
      exact hacc
  | succ m ih =>
      intro acc ent rest out h hval hacc
      simp only [pickupLoop] at h
      cases hs : samplePickupTile W H T g acc ent with
      | none => rw [hs] at h; simp at h
      | some pr =>
          obtain ⟨⟨x, y⟩, ent'⟩ := pr
          rw [hs] at h
          dsimp only at h
          obtain ⟨hx0, hx1, hy0, hy1, hop, hval'⟩ :=
            samplePickupTile_spec hW hH ent hs hval
          cases ent' with
          | nil => simp at h
          | cons u3 ent'' =>
              have hval'' : validEnt ent'' :=
                fun v hv => hval' v (by simp [hv])
              refine ih h hval'' ?_
              intro p hp
              rcases List.mem_append.mp hp with hp' | hp'
              · exact hacc p hp'
              · have : p = ⟨x * T + T / 2, y * T + T / 2, ⌊u3 * 5⌋⟩ := by
                  simpa using hp'
                subst this
                exact ⟨x, y, hx0, hx1, hy0, hy1, rfl, rfl, hop⟩

lemma carveRoom_border {W H : ℤ} (g : Grid) (x y w h j i : ℤ)
    (hb : onBorder W H j i) :
    carveRoom W H g x y w h j i = g j i := by
  unfold carveRoom
  rw [if_neg]
  rintro ⟨-, -, -, -, h5, h6, h7, h8⟩
  rcases hb with hb | hb | hb | hb <;> omega

lemma writeTile_border {W H : ℤ} (g : Grid) (jw iw j i : ℤ) (v : ℕ)
    (hint : 0 < iw ∧ iw < W - 1 ∧ 0 < jw ∧ jw < H - 1)
    (hb : onBorder W H j i) :
    writeTile g jw iw v j i = g j i := by
  unfold writeTile
  rw [if_neg]
  rintro ⟨rfl, rfl⟩
  rcases hb with hb | hb | hb | hb <;> omega

lemma corridorSteps_border {W H : ℤ} (fuel : ℕ) :
    ∀ (g : Grid) (x y x2 y2 j i : ℤ), onBorder W H j i →
      corridorSteps W H fuel g x y x2 y2 j i = g j i := by
  induction fuel with
  | zero => intro g x y x2 y2 j i _; rfl
  | succ m ih =>
      intro g x y x2 y2 j i hb
      simp only [corridorSteps]
      by_cases hstop : x = x2 ∧ y = y2
      · rw [if_pos hstop]
      · rw [if_neg hstop]
        set x' := if x ≠ x2 then (if x < x2 then x + 1 else x - 1) else x with hx'
        set y' := if x ≠ x2 then y else (if y < y2 then y + 1 else y - 1) with hy'
        by_cases hint : 0 < x' ∧ x' < W - 1 ∧ 0 < y' ∧ y' < H - 1
        · rw [if_pos hint, ih _ _ _ _ _ _ _ hb, writeTile_border _ _ _ _ _ _ hint hb]
        · rw [if_neg hint, ih _ _ _ _ _ _ _ hb]

lemma carveCorridor_border {W H : ℤ} (g : Grid) (x1 y1 x2 y2 j i : ℤ)
    (hb : onBorder W H j i) :
    carveCorridor W H g x1 y1 x2 y2 j i = g j i :=
  corridorSteps_border _ g x1 y1 x2 y2 j i hb

lemma connectRooms_border {W H : ℤ} (rooms : List Room) :
    ∀ (g : Grid) (j i : ℤ), onBorder W H j i →
      connectRooms W H g rooms j i = g j i := by
  unfold connectRooms
  generalize rooms.zip rooms.tail = pairs
  induction pairs with
  | nil => intro g j i _; rfl
  | cons ab rest ih =>
      intro g j i hb
      simp only [List.foldl_cons]
      rw [ih _ j i hb, carveCorridor_border _ _ _ _ _ _ _ hb]

lemma roomsLoop_border {W H : ℤ} (n : ℕ) :
    ∀ (rooms : List Room) (g : Grid) (ent : List ℚ) (rooms' : List Room)
      (g' : Grid) (ent' : List ℚ) (j i : ℤ),
      roomsLoop W H n rooms g ent = some (rooms', g', ent') →
      onBorder W H j i → g' j i = g j i := by
  induction n with
  | zero =>
      intro rooms g ent rooms' g' ent' j i h hb
      simp only [roomsLoop, Option.some_inj] at h
      obtain ⟨-, h2⟩ := Prod.mk.injEq .. ▸ h
      obtain ⟨h3, -⟩ := Prod.mk.injEq .. ▸ h2
      rw [← h3]
  | succ m ih =>
      intro rooms g ent rooms' g' ent' j i h hb
      simp only [roomsLoop] at h
      cases ht : tryPlaceRoom W H rooms 10 ent with
      | none => rw [ht] at h; simp at h
      | some pr =>
          obtain ⟨or, ent1⟩ := pr
          rw [ht] at h
          cases or with
          | none => exact ih _ _ _ _ _ _ _ _ h hb
          | some r =>
              rw [ih _ _ _ _ _ _ _ _ h hb,
                carveRoom_border _ _ _ _ _ _ _ hb]

lemma tryPlaceRoom_valid {W H : ℤ} {rooms : List Room} (fuel : ℕ) :
    ∀ {ent : List ℚ} {res : Option Room} {rest : List ℚ},
      tryPlaceRoom W H rooms fuel ent = some (res, rest) → validEnt ent →
      validEnt rest := by
  induction fuel with
  | zero =>
      intro ent res rest h hval
      simp only [tryPlaceRoom, Option.some_inj] at h
      obtain ⟨-, h2⟩ := Prod.mk.injEq .. ▸ h
      rw [← h2]; exact hval
  | succ m ih =>
      intro ent res rest h hval
      match ent with
      | [] => simp [tryPlaceRoom] at h
      | [u] => simp [tryPlaceRoom] at h
      | [u, v] => simp [tryPlaceRoom] at h
      | [u, v, w] => simp [tryPlaceRoom] at h
      | u1 :: u2 :: u3 :: u4 :: r =>
          have hvr : validEnt r := fun v hv => hval v (by simp [hv])
          simp only [tryPlaceRoom] at h
          split at h
          · exact ih h hvr
          · simp only [Option.some_inj] at h
            obtain ⟨-, h2⟩ := Prod.mk.injEq .. ▸ h
            rw [← h2]; exact hvr

lemma roomsLoop_valid {W H : ℤ} (n : ℕ) :
    ∀ {rooms : List Room} {g : Grid} {ent : List ℚ} {rooms' : List Room}
      {g' : Grid} {ent' : List ℚ},
      roomsLoop W H n rooms g ent = some (rooms', g', ent') → validEnt ent →
      validEnt ent' := by
  induction n with
  | zero =>
      intro rooms g ent rooms' g' ent' h hval
      simp only [roomsLoop, Option.some_inj] at h
      obtain ⟨-, h2⟩ := Prod.mk.injEq .. ▸ h
      obtain ⟨-, h3⟩ := Prod.mk.injEq .. ▸ h2
      rw [← h3]; exact hval
  | succ m ih =>
      intro rooms g ent rooms' g' ent' h hval
      simp only [roomsLoop] at h
      cases ht : tryPlaceRoom W H rooms 10 ent with
      | none => rw [ht] at h; simp at h
      | some pr =>
          obtain ⟨ores, ent1⟩ := pr
          rw [ht] at h
          have hval1 : validEnt ent1 := tryPlaceRoom_valid 10 ht hval
          cases ores with
          | none => exact ih h hval1
          | some r => exact ih h hval1

lemma rowTexs_getD_ne_zero {rowDraws : List ℚ}
    (hmem : ∀ u ∈ rowDraws, 0 ≤ u ∧ u < 1) {k : ℕ}
    (hk : k < rowDraws.length) :
    (rowDraws.map randomWallTexture).getD k 0 ≠ 0 := by
  rw [List.getD_eq_getElem _ _ (by simpa using hk)]
  simp only [List.getElem_map]
  have hv := hmem _ (List.getElem_mem hk)
  exact randomWallTexture_ne_zero hv.1 hv.2

lemma joinSeq_assigned (s : ServerState) (cs : List (String × String)) :
    (joinSeq s cs).2 =
      s.spawnPointPool.reverse.take cs.length ++
        List.replicate (cs.length - s.spawnPointPool.length) (⟨0, 0⟩ : Pt) := by
  induction cs generalizing s with
  | nil => simp [joinSeq]
  | cons c rest ih =>
      rcases List.eq_nil_or_concat s.spawnPointPool with hp | ⟨q, a, hp⟩
      · simp [joinSeq, handleJoin, assignSpawnPoint, hp, ih, List.replicate_succ]
      · simp only [joinSeq, handleJoin, assignSpawnPoint, hp]
        have hne : (q ++ [a]).isEmpty = false := by simp
        simp only [hne, if_neg Bool.false_ne_true, ih]
        simp [List.getLastD_concat, List.dropLast_concat, List.reverse_concat,
          Nat.succ_sub_succ]

lemma joinSeq_pool (s : ServerState) (cs : List (String × String)) :
    (joinSeq s cs).1.spawnPointPool =
      s.spawnPointPool.take (s.spawnPointPool.length - cs.length) := by
  induction cs generalizing s with
  | nil => simp [joinSeq]
  | cons c rest ih =>
      rcases List.eq_nil_or_concat s.spawnPointPool with hp | ⟨q, a, hp⟩
      · simp [joinSeq, handleJoin, assignSpawnPoint, hp, ih]
      · simp only [joinSeq, handleJoin, assignSpawnPoint, hp,
          List.concat_eq_append]
        have hne : (q ++ [a]).isEmpty = false := by simp
        simp only [hne, if_neg Bool.false_ne_true, ih]
        simp only [List.dropLast_concat, List.length_append, List.length_cons,
          List.length_nil, Nat.succ_sub_succ, Nat.zero_add]
        rw [List.take_append_of_le_length (by omega)]

lemma joinSeq_roster (s : ServerState) (cs : List (String × String))
    (lvl : LevelData) (h : s.currentLevel = some lvl) :
    (joinSeq s cs).1.currentLevel.map (fun l => l.players.length) =
      some (lvl.players.length + cs.length) := by
  induction cs generalizing s lvl with
  | nil => simp [joinSeq, h]
  | cons c rest ih =>
      simp only [joinSeq]
      have h' : (handleJoin s c.1 c.2).1.currentLevel =
          some { lvl with
            players := lvl.players ++
              [⟨(assignSpawnPoint s.spawnPointPool).1.x,
                (assignSpawnPoint s.spawnPointPool).1.y, c.2⟩] } := by
        simp [handleJoin, h]
      have := ih (handleJoin s c.1 c.2).1 _ h'
      simpa [this] using by omega

lemma XQ_lt_inf_left (b : XQ) : XQ.lt XQ.inf b = false := by
  cases b <;> rfl

lemma XQ_lt_fin_inf (q : ℚ) : XQ.lt (XQ.fin q) XQ.inf = true := rfl

lemma mkDelta_zero : mkDelta 0 = XQ.inf := by simp [mkDelta]

lemma mkDelta_ne_zero {d : ℚ} (h : d ≠ 0) : mkDelta d = XQ.fin |1 / d| := by
  simp [mkDelta, h]

lemma XQ_add_inf_inf : XQ.add XQ.inf XQ.inf = XQ.inf := rfl

lemma XQ_add_fin_fin (a b : ℚ) :
    XQ.add (XQ.fin a) (XQ.fin b) = XQ.fin (a + b) := rfl

lemma ddaLoop_no_fuel_out (level : List (List ℤ)) (deltaX deltaY : XQ)
    {stepX stepY : ℤ}
    (hsx : stepX = 1 ∨ stepX = -1) (hsy : stepY = 1 ∨ stepY = -1) :
    ∀ (fuel : ℕ) (sideX sideY : XQ) (mapX mapY : ℤ),
      0 ≤ mapX → mapX < ((level.headD []).length : ℤ) →
      0 ≤ mapY → mapY < (level.length : ℤ) →
      ddaMeasure ((level.headD []).length : ℤ) (level.length : ℤ)
        stepX stepY mapX mapY ≤ fuel →
      ddaLoop level deltaX deltaY stepX stepY fuel sideX sideY mapX mapY ≠
        none := by
  intro fuel
  induction fuel with
  | zero =>
      intro sideX sideY mapX mapY hx0 hxw hy0 hyh hm
      exfalso
      unfold ddaMeasure at hm
      rcases hsx with rfl | rfl <;> rcases hsy with rfl | rfl <;>
        simp only [if_pos (show ((-1 : ℤ) < 0) by norm_num),
          if_neg (show ¬((1 : ℤ) < 0) by norm_num)] at hm <;> omega
  | succ m ih =>
      intro sideX sideY mapX mapY hx0 hxw hy0 hyh hm
      intro heq
      simp only [ddaLoop] at heq
      by_cases hso : XQ.lt sideX sideY = true
      all_goals simp only [hso, if_true, if_false, Bool.false_eq_true] at heq
      · split at heq
        · exact Option.noConfusion heq
        · split at heq
          · exact Option.noConfusion heq
          · rename_i hout hhit
            push_neg at hout
            refine ih _ _ _ _ hout.1 hout.2.1 hout.2.2.1 hout.2.2.2 ?_ heq
            unfold ddaMeasure at hm ⊢
            rcases hsx with rfl | rfl <;> rcases hsy with rfl | rfl <;>
              simp only [if_pos (show ((-1 : ℤ) < 0) by norm_num),
                if_neg (show ¬((1 : ℤ) < 0) by norm_num)] at hm ⊢ <;> omega
      · split at heq
        · exact Option.noConfusion heq
        · split at heq
          · exact Option.noConfusion heq
          · rename_i hout hhit
            push_neg at hout
            refine ih _ _ _ _ hout.1 hout.2.1 hout.2.2.1 hout.2.2.2 ?_ heq
            unfold ddaMeasure at hm ⊢
            rcases hsx with rfl | rfl <;> rcases hsy with rfl | rfl <;>
              simp only [if_pos (show ((-1 : ℤ) < 0) by norm_num),
                if_neg (show ¬((1 : ℤ) < 0) by norm_num)] at hm ⊢ <;> omega

lemma tileAt_allOpen {level : List (List ℤ)}
    (hopen : ∀ row ∈ level, ∀ t ∈ row, t = 0) (mapY mapX : ℤ) :
    tileAt level mapY mapX = 0 := by
  unfold tileAt
  by_cases hY : mapY.toNat < level.length
  · rw [List.getD_eq_getElem _ _ hY]
    by_cases hX : mapX.toNat < (level[mapY.toNat]).length
    · rw [List.getD_eq_getElem _ _ hX]
      exact hopen _ (List.getElem_mem hY) _ (List.getElem_mem hX)
    · rw [List.getD_eq_default _ _ (Nat.le_of_not_lt hX)]
  · rw [List.getD_eq_default _ _ (Nat.le_of_not_lt hY)]
    simp [List.getD]

lemma ddaLoop_allOpen_miss (level : List (List ℤ)) (deltaX deltaY : XQ)
    {stepX stepY : ℤ}
    (hopen : ∀ row ∈ level, ∀ t ∈ row, t = 0)
    (hsx : stepX = 1 ∨ stepX = -1) (hsy : stepY = 1 ∨ stepY = -1) :
    ∀ (fuel : ℕ) (sideX sideY : XQ) (mapX mapY : ℤ),
      0 ≤ mapX → mapX < ((level.headD []).length : ℤ) →
      0 ≤ mapY → mapY < (level.length : ℤ) →
      ddaMeasure ((level.headD []).length : ℤ) (level.length : ℤ)
        stepX stepY mapX mapY ≤ fuel →
      ddaLoop level deltaX deltaY stepX stepY fuel sideX sideY mapX mapY =
        some DdaOut.miss := by
  intro fuel
  induction fuel with
  | zero =>
      intro sideX sideY mapX mapY hx0 hxw hy0 hyh hm
      exfalso
      unfold ddaMeasure at hm
      rcases hsx with rfl | rfl <;> rcases hsy with rfl | rfl <;>
        simp only [if_pos (show ((-1 : ℤ) < 0) by norm_num),
          if_neg (show ¬((1 : ℤ) < 0) by norm_num)] at hm <;> omega
  | succ m ih =>
      intro sideX sideY mapX mapY hx0 hxw hy0 hyh hm
      simp only [ddaLoop]
      by_cases hso : XQ.lt sideX sideY = true
      all_goals simp only [hso, if_true, if_false, Bool.false_eq_true]
      · split
        · rfl
        · rename_i hout
          push_neg at hout
          rw [if_neg (by rw [tileAt_allOpen hopen]; omega)]
          refine ih _ _ _ _ hout.1 hout.2.1 hout.2.2.1 hout.2.2.2 ?_
          unfold ddaMeasure at hm ⊢
          rcases hsx with rfl | rfl <;> rcases hsy with rfl | rfl <;>
            simp only [if_pos (show ((-1 : ℤ) < 0) by norm_num),
              if_neg (show ¬((1 : ℤ) < 0) by norm_num)] at hm ⊢ <;> omega
      · split
        · rfl
        · rename_i hout
          push_neg at hout
          rw [if_neg (by rw [tileAt_allOpen hopen]; omega)]
          refine ih _ _ _ _ hout.1 hout.2.1 hout.2.2.1 hout.2.2.2 ?_
          unfold ddaMeasure at hm ⊢
          rcases hsx with rfl | rfl <;> rcases hsy with rfl | rfl <;>
            simp only [if_pos (show ((-1 : ℤ) < 0) by norm_num),
              if_neg (show ¬((1 : ℤ) < 0) by norm_num)] at hm ⊢ <;> omega

lemma ddaLoop_hit_facts (level : List (List ℤ)) {dirX dirY : ℚ}
    {stepX stepY : ℤ} :
    ∀ (fuel : ℕ) (sideX sideY : XQ) (mapX mapY : ℤ) {mX mY : ℤ} {sd : ℕ},
      (dirX = 0 → sideX = XQ.inf) → (dirX ≠ 0 → ∃ q, sideX = XQ.fin q) →
      (dirY = 0 → sideY = XQ.inf) → (dirY ≠ 0 → ∃ q, sideY = XQ.fin q) →
      ddaLoop level (mkDelta dirX) (mkDelta dirY) stepX stepY fuel
        sideX sideY mapX mapY = some (DdaOut.hit mX mY sd) →
      (sd = 0 ∨ sd = 1) ∧ (sd = 0 → dirX ≠ 0) ∧
      (sd = 1 → (dirY ≠ 0 ∨ dirX = 0)) ∧ 0 < tileAt level mY mX := by
  intro fuel
  induction fuel with
  | zero =>
      intro sideX sideY mapX mapY mX mY sd _ _ _ _ h
      exact Option.noConfusion h
  | succ m ih =>
      intro sideX sideY mapX mapY mX mY sd hx0 hxf hy0 hyf h
      simp only [ddaLoop] at h
      by_cases hso : XQ.lt sideX sideY = true
      all_goals simp only [hso, if_true, if_false, Bool.false_eq_true] at h
      · -- stepped X, side = 0
        split at h
        · simp at h
        · split at h
          · rename_i hout htile
            obtain ⟨h1, h2, h3⟩ := DdaOut.hit.injEq .. ▸ Option.some_inj.mp h
            subst h1; subst h2; subst h3
            have hdx : dirX ≠ 0 := by
              intro hdx0
              rw [hx0 hdx0, XQ_lt_inf_left] at hso
              exact Bool.false_ne_true hso
            exact ⟨Or.inl rfl, fun _ => hdx, fun hc => by omega, htile⟩
          · rename_i hout htile
            refine ih _ _ _ _ ?_ ?_ hy0 hyf h
            · intro hdx0
              rw [hx0 hdx0, XQ_lt_inf_left] at hso
              exact absurd hso Bool.false_ne_true
            · intro hdx
              obtain ⟨q, hq⟩ := hxf hdx
              exact ⟨q + |1 / dirX|, by rw [hq, mkDelta_ne_zero hdx, XQ_add_fin_fin]⟩
      · -- stepped Y, side = 1
        split at h
        · simp at h
        · split at h
          · rename_i hout htile
            obtain ⟨h1, h2, h3⟩ := DdaOut.hit.injEq .. ▸ Option.some_inj.mp h
            subst h1; subst h2; subst h3
            have hkey : dirY ≠ 0 ∨ dirX = 0 := by
              by_cases hdy : dirY = 0
              · right
                by_contra hdx
                obtain ⟨q, hq⟩ := hxf hdx
                rw [hq, hy0 hdy, XQ_lt_fin_inf] at hso
                exact hso rfl
              · exact Or.inl hdy
            exact ⟨Or.inr rfl, fun hc => by omega, fun _ => hkey, htile⟩
          · rename_i hout htile
            refine ih _ _ _ _ hx0 hxf ?_ ?_ h
            · intro hdy0
              rw [hy0 hdy0, hdy0, mkDelta_zero, XQ_add_inf_inf]
            · intro hdy
              obtain ⟨q, hq⟩ := hyf hdy
              exact ⟨q + |1 / dirY|, by rw [hq, mkDelta_ne_zero hdy, XQ_add_fin_fin]⟩

/-! ## Claim theorems -/

/-- Claim C1, counterexample: with a level holding one pickup and two open
clients, the first `Collect(192,192,0)` report empties the pickup list, and a
second identical report — while being a no-op on the already-empty list —
still emits a broadcast, so the claim's "does not broadcast again" is false
of the code. -/
theorem C1_counterexample :
    ((handleCollect s0 d0).1.currentLevel.map LevelData.pickups = some []) ∧
    ((handleCollect (handleCollect s0 d0).1 d0).1.currentLevel.map
        LevelData.pickups = some []) ∧
    (handleCollect (handleCollect s0 d0).1 d0).2 ≠ [] := by
  decide

/-- Claim C1 (amended): while a level exists, `handleCollect` removes exactly
the pickups whose `(x, y, type)` equals the report and broadcasts the updated
pickup list to every connected client; a second identical report finds no
matching pickup, leaves the pickup list unchanged, does not error — but it
re-broadcasts the (unchanged) pickup list, which no longer contains the
collected item, so the absent item itself is never re-sent. -/
theorem C1_collect_amended
    (s : ServerState) (d : CollectData) (lvl : LevelData)
    (h : s.currentLevel = some lvl) :
    ((handleCollect s d).1.currentLevel.map LevelData.pickups =
        some (lvl.pickups.filter (fun p => ¬ pickupMatches d p))) ∧
    (∀ p, p ∈ lvl.pickups.filter (fun p => ¬ pickupMatches d p) ↔
        p ∈ lvl.pickups ∧ ¬ pickupMatches d p) ∧
    ((handleCollect s d).2 =
        broadcastMsg s.clients
          (Msg.collectibles (lvl.pickups.filter (fun p => ¬ pickupMatches d p)))) ∧
    (∀ c ∈ s.clients, c.isOpen →
        (c.id, Msg.collectibles (lvl.pickups.filter (fun p => ¬ pickupMatches d p)))
          ∈ (handleCollect s d).2) ∧
    ((handleCollect (handleCollect s d).1 d).1.currentLevel.map LevelData.pickups =
        (handleCollect s d).1.currentLevel.map LevelData.pickups) ∧
    ((handleCollect (handleCollect s d).1 d).2 =
        broadcastMsg s.clients
          (Msg.collectibles (lvl.pickups.filter (fun p => ¬ pickupMatches d p)))) ∧
    (∀ p ∈ lvl.pickups.filter (fun p => ¬ pickupMatches d p), ¬ pickupMatches d p) := by
  refine ⟨?_, ?_, ?_, ?_, ?_, ?_, ?_⟩
  · simp [handleCollect, h]
  · intro p; simp [List.mem_filter]
  · simp [handleCollect, h]
  · intro c hc hopen
    simp [handleCollect, h, broadcastMsg, List.mem_map, List.mem_filter]
    exact ⟨c, ⟨hc, hopen⟩, rfl⟩
  · simp [handleCollect, h, List.filter_filter]
  · simp [handleCollect, h, List.filter_filter]
  · intro p hp
    have := (List.mem_filter.mp hp).2
    simpa using this

/-- Witness for claim C1 at the concrete two-client, one-pickup state. -/
theorem C1_collect_amended_witness :
    ((handleCollect s0 d0).1.currentLevel.map LevelData.pickups =
        some (lvl0.pickups.filter (fun p => ¬ pickupMatches d0 p))) ∧
    (∀ p ∈ lvl0.pickups.filter (fun p => ¬ pickupMatches d0 p),
        ¬ pickupMatches d0 p) :=
  ⟨(C1_collect_amended s0 d0 lvl0 rfl).1,
   (C1_collect_amended s0 d0 lvl0 rfl).2.2.2.2.2.2⟩

-- ### C5 helpers

/-- Claim C2, failing input: tileSize 128, origin `(128, 192)` on a tile
boundary, direction `(1, 0)` aimed at a solid tile 2 tiles away.  `castRay`
computes `perpWallDist` in tile units (here 2) and adds it un-rescaled to the
world-unit origin, returning hit point `(130, 192)`; the claim requires the
hit distance `2 * tileSize = 256` (hit point `(384, 192)`), and `130 - 128 =
2 ≠ 256`. -/
theorem C2_hit_point_in_tile_units :
    castRayDda [[1, 1, 1, 1], [1, 0, 0, 5], [1, 1, 1, 1]] 128
        128 192 1 0 1000 20 =
      some (some ⟨130, 192, 5⟩) ∧
    (130 : ℚ) - 128 ≠ 2 * 128 := by
  constructor
  · with_unfolding_all rfl
  · with_unfolding_all decide

/-- Claim C3: after `generateLevel` completes, every tile of the outermost
ring of the grid is non-zero (solid), and every produced spawn point and
every pickup lies at the world-coordinate center of a tile whose code is 0. -/
theorem C3_border_and_open_placement
    (W H numPlayers : ℕ) (T : ℚ) (ent : List ℚ) (lvl : LevelData)
    (hW : 0 < W) (hH : 0 < H)
    (hval : validEnt ent)
    (hgen : generateLevel W H numPlayers T ent = some lvl) :
    borderSolid W H lvl.walls ∧
    (∀ sp ∈ lvl.spawnPoints, onOpenCenter W H T lvl.walls sp.x sp.y) ∧
    (∀ p ∈ lvl.pickups, onOpenCenter W H T lvl.walls p.x p.y) := by
  unfold generateLevel at hgen
  cases hd : drawN H ent with
  | none => rw [hd] at hgen; simp at hgen
  | some pr =>
      obtain ⟨rowDraws, ent1⟩ := pr
      rw [hd] at hgen
      dsimp only at hgen
      obtain ⟨hlen, hrowmem, hval1⟩ := drawN_spec hd hval
      cases hr : roomsLoop (W : ℤ) (H : ℤ) (min W H / 2) []
          (fun j _ => (rowDraws.map randomWallTexture).getD j.toNat 0) ent1 with
      | none => rw [hr] at hgen; simp at hgen
      | some pr2 =>
          obtain ⟨rooms, g1, ent2⟩ := pr2
          rw [hr] at hgen
          dsimp only at hgen
          have hval2 : validEnt ent2 := roomsLoop_valid _ hr hval1
          cases hsp : spawnLoop (W : ℤ) (H : ℤ) T
              (connectRooms (W : ℤ) (H : ℤ) g1 rooms) numPlayers ent2 with
          | none => rw [hsp] at hgen; simp at hgen
          | some pr3 =>
              obtain ⟨spawns, ent3⟩ := pr3
              rw [hsp] at hgen
              dsimp only at hgen
              have hWZ : (0 : ℤ) < (W : ℤ) := by exact_mod_cast hW
              have hHZ : (0 : ℤ) < (H : ℤ) := by exact_mod_cast hH
              obtain ⟨hspawns, hval3⟩ := spawnLoop_spec hWZ hHZ hsp hval2
              cases hpk : pickupLoop (W : ℤ) (H : ℤ) T
                  (connectRooms (W : ℤ) (H : ℤ) g1 rooms)
                  (numPlayers * 2) [] ent3 with
              | none => rw [hpk] at hgen; simp at hgen
              | some pr4 =>
                  obtain ⟨pickups, ent4⟩ := pr4
                  rw [hpk] at hgen
                  simp only [Option.some_inj] at hgen
                  subst hgen
                  have hpicks := pickupLoop_spec hWZ hHZ hpk hval3 (by simp)
                  refine ⟨?_, ?_, ?_⟩
                  · -- border solidity
                    have hbase : ∀ j i : ℤ, onBorder (W : ℤ) (H : ℤ) j i →
                        0 ≤ j → j < (H : ℤ) →
                        connectRooms (W : ℤ) (H : ℤ) g1 rooms j i ≠ 0 := by
                      intro j i hb hj0 hjH
                      rw [connectRooms_border _ _ _ _ hb,
                        roomsLoop_border _ _ _ _ _ _ _ _ _ hr hb]
                      have hjn : j.toNat < rowDraws.length := by
                        rw [hlen]; omega
                      exact rowTexs_getD_ne_zero hrowmem hjn
                    constructor
                    · intro i hi
                      constructor
                      · exact hbase 0 (i : ℤ) (Or.inl rfl) le_rfl (by exact_mod_cast hH)
                      · exact hbase ((H : ℤ) - 1) (i : ℤ) (Or.inr (Or.inl rfl))
                          (by omega) (by omega)
                    · intro j hj
                      constructor
                      · exact hbase (j : ℤ) 0 (Or.inr (Or.inr (Or.inl rfl)))
                          (by exact_mod_cast Nat.zero_le j) (by exact_mod_cast hj)
                      · exact hbase (j : ℤ) ((W : ℤ) - 1)
                          (Or.inr (Or.inr (Or.inr rfl)))
                          (by exact_mod_cast Nat.zero_le j) (by exact_mod_cast hj)
                  · -- spawn points on open tile centers
                    intro sp hsp'
                    obtain ⟨tx, ty, h1, h2, h3, h4, h5, h6, h7⟩ := hspawns sp hsp'
                    exact ⟨tx, ty, h1, h2, h3, h4, h5, h6, h7⟩
                  · -- pickups on open tile centers
                    intro p hp'
                    obtain ⟨tx, ty, h1, h2, h3, h4, h5, h6, h7⟩ := hpicks p hp'
                    exact ⟨tx, ty, h1, h2, h3, h4, h5, h6, h7⟩

set_option maxRecDepth 4000 in
/-- Witness for claim C3 on the concrete 8×8 one-player generation `lvlG`. -/
theorem C3_border_and_open_placement_witness :
    borderSolid 8 8 lvlG.walls ∧
    (∀ sp ∈ lvlG.spawnPoints, onOpenCenter 8 8 128 lvlG.walls sp.x sp.y) ∧
    (∀ p ∈ lvlG.pickups, onOpenCenter 8 8 128 lvlG.walls p.x p.y) :=
  C3_border_and_open_placement 8 8 1 128 entG lvlG (by decide) (by decide)
    (by with_unfolding_all decide) (by with_unfolding_all rfl)

/-- Claim C4, failing input: the entropy stream `entG` drives both pickup
samples onto the same open tile (1,1) with the same type draw.  Because the
duplicate check compares stored tile-center coordinates against tile-corner
coordinates (`pickup.x === x * tileSize`), it never fires, and the generated
level holds two pickups with identical `(x, y, type) = (192, 192, 0)` —
contradicting the claim that duplicates are rejected. -/
theorem C4_duplicate_pickups :
    (generateLevel 8 8 1 128 entG).map LevelData.pickups =
      some [⟨192, 192, 0⟩, ⟨192, 192, 0⟩] ∧
    ¬ ([(⟨192, 192, 0⟩ : Pickup), ⟨192, 192, 0⟩].Nodup) := by
  constructor
  · with_unfolding_all decide
  · decide

/-- Claim C5, counterexample: a pool holding two *equal* entries satisfies
"holds at least N = 2 entries", yet the two sequential joins receive equal
spawn points, so "each receive a distinct spawn point" is false as stated. -/
theorem C5_counterexample :
    s5.spawnPointPool.length = 2 ∧
    ¬ (joinSeq s5 [("a", "A"), ("b", "B")]).2.Nodup := by
  decide

/-- Claim C5 (amended): the spawn points assigned by N sequential joins are
exactly the last N pool entries in LIFO order, padded with the default origin
`{x: 0, y: 0}` once the pool is exhausted; each assignment removes the
returned entry (the pool shrinks from the tail); if the pool entries are
pairwise distinct and the pool holds at least N entries, the N assignments
are pairwise distinct; a join on an empty pool still succeeds with the
default origin, and every join appends one roster entry. -/
theorem C5_amended (s : ServerState) (cs : List (String × String)) :
    ((joinSeq s cs).2 =
        s.spawnPointPool.reverse.take cs.length ++
          List.replicate (cs.length - s.spawnPointPool.length) (⟨0, 0⟩ : Pt)) ∧
    ((joinSeq s cs).1.spawnPointPool =
        s.spawnPointPool.take (s.spawnPointPool.length - cs.length)) ∧
    ((joinSeq s cs).2.length = cs.length) ∧
    (s.spawnPointPool.Nodup → cs.length ≤ s.spawnPointPool.length →
        (joinSeq s cs).2.Nodup) ∧
    (s.spawnPointPool = [] →
        (joinSeq s cs).2 = List.replicate cs.length (⟨0, 0⟩ : Pt)) ∧
    (∀ lvl, s.currentLevel = some lvl →
        (joinSeq s cs).1.currentLevel.map (fun l => l.players.length) =
          some (lvl.players.length + cs.length)) := by
  refine ⟨joinSeq_assigned s cs, joinSeq_pool s cs, ?_, ?_, ?_, ?_⟩
  · rw [joinSeq_assigned]
    simp only [List.length_append, List.length_take, List.length_replicate,
      List.length_reverse]
    omega
  · intro hnd hle
    rw [joinSeq_assigned, Nat.sub_eq_zero_of_le hle]
    simpa using ((List.take_sublist _ _).nodup (List.nodup_reverse.mpr hnd))
  · intro hp
    rw [joinSeq_assigned, hp]
    simp
  · intro lvl h
    exact joinSeq_roster s cs lvl h

/-- Witness for claim C5: pool `[(1,1), (2,2), (3,3)]`, four joins — LIFO
order `(3,3), (2,2), (1,1)` then the default `(0,0)`; three joins over a
distinct pool are pairwise distinct; all four joins append to the roster. -/
theorem C5_amended_witness :
    ((joinSeq sW csW).2 = [⟨3, 3⟩, ⟨2, 2⟩, ⟨1, 1⟩, ⟨0, 0⟩]) ∧
    (joinSeq sW cs3).2.Nodup ∧
    (joinSeq sW csW).1.currentLevel.map (fun l => l.players.length) = some 4 :=
  ⟨((C5_amended sW csW).1).trans (by decide),
   (C5_amended sW cs3).2.2.2.1 (by decide) (by decide),
   ((C5_amended sW csW).2.2.2.2.2 lvl0 rfl).trans (by decide)⟩

-- ### C10

/-- Claim C6 (spec-modelled): every hit returned by the modelled `castRay`
carries the `RaycastHit` data of the data model — the hit point equal to
`origin + distance * direction`, the hit distance, the struck tile's code
(positive, i.e. solid), and an axis-aligned unit normal equal to `(±1, 0)` or
`(0, ±1)` facing the ray origin (negative dot product with the ray
direction). -/
theorem C6_model_hit_contract (level : List (List ℤ)) (tileSize : ℚ)
    (x y dirX dirY angle : ℚ) (fuel : ℕ) (h : SpecRaycastHit)
    (hdir : ¬ (dirX = 0 ∧ dirY = 0))
    (hhit : castRayModel level tileSize x y dirX dirY angle fuel =
      some (some h)) :
    (h.normal = ⟨1, 0⟩ ∨ h.normal = ⟨-1, 0⟩ ∨
      h.normal = ⟨0, 1⟩ ∨ h.normal = ⟨0, -1⟩) ∧
    h.normal.x * dirX + h.normal.y * dirY < 0 ∧
    h.point.x = x + h.distance * dirX ∧
    h.point.y = y + h.distance * dirY ∧
    0 < h.tileCode := by
  simp only [castRayModel] at hhit
  cases hd : ddaLoop level (mkDelta dirX) (mkDelta dirY)
      (if dirX < 0 then (-1 : ℤ) else 1) (if dirY < 0 then (-1 : ℤ) else 1)
      fuel
      (if dirX < 0 then mkSideDist (x / tileSize - ⌊x / tileSize⌋) (mkDelta dirX)
        else mkSideDist ((⌊x / tileSize⌋ : ℚ) + 1 - x / tileSize) (mkDelta dirX))
      (if dirY < 0 then mkSideDist (y / tileSize - ⌊y / tileSize⌋) (mkDelta dirY)
        else mkSideDist ((⌊y / tileSize⌋ : ℚ) + 1 - y / tileSize) (mkDelta dirY))
      ⌊x / tileSize⌋ ⌊y / tileSize⌋ with
  | none => rw [hd] at hhit; exact Option.noConfusion hhit
  | some r =>
      rw [hd] at hhit
      cases r with
      | miss => simp at hhit
      | hit mX mY sd =>
          have hfacts := ddaLoop_hit_facts level fuel _ _ _ _
            (fun hdx0 => by
              rw [if_neg (by rw [hdx0]; exact lt_irrefl 0), hdx0, mkDelta_zero]
              have : (⌊x / tileSize⌋ : ℚ) + 1 - x / tileSize ≠ 0 := by
                have := Int.lt_floor_add_one (x / tileSize)
                intro hc
                rw [sub_eq_zero] at hc
                exact absurd hc.symm (ne_of_lt this)
              simp [mkSideDist, XQ.scaleInf, this])
            (fun hdx => by
              rcases lt_or_ge dirX 0 with hlt | hge
              · rw [if_pos hlt, mkDelta_ne_zero hdx]
                exact ⟨_, rfl⟩
              · rw [if_neg (not_lt.mpr hge), mkDelta_ne_zero hdx]
                exact ⟨_, rfl⟩)
            (fun hdy0 => by
              rw [if_neg (by rw [hdy0]; exact lt_irrefl 0), hdy0, mkDelta_zero]
              have : (⌊y / tileSize⌋ : ℚ) + 1 - y / tileSize ≠ 0 := by
                have := Int.lt_floor_add_one (y / tileSize)
                intro hc
                rw [sub_eq_zero] at hc
                exact absurd hc.symm (ne_of_lt this)
              simp [mkSideDist, XQ.scaleInf, this])
            (fun hdy => by
              rcases lt_or_ge dirY 0 with hlt | hge
              · rw [if_pos hlt, mkDelta_ne_zero hdy]
                exact ⟨_, rfl⟩
              · rw [if_neg (not_lt.mpr hge), mkDelta_ne_zero hdy]
                exact ⟨_, rfl⟩)
            hd
          obtain ⟨hsd, hsd0, hsd1, htile⟩ := hfacts
          simp only [Option.some_inj] at hhit
          subst hhit
          rcases hsd with rfl | rfl
          · -- side = 0: vertical face, normal = (-stepX, 0)
            have hdx := hsd0 rfl
            simp only [if_pos rfl]
            rcases lt_or_ge dirX 0 with hlt | hge
            · simp only [if_pos hlt]
              refine ⟨Or.inl (by norm_num [Pt.mk.injEq]), ?_, by trivial, by trivial, htile⟩
              push_cast
              ring_nf
              linarith
            · have hgt : 0 < dirX := lt_of_le_of_ne hge (Ne.symm hdx)
              simp only [if_neg (not_lt.mpr hge)]
              refine ⟨Or.inr (Or.inl (by norm_num [Pt.mk.injEq])), ?_, by trivial,
                by trivial, htile⟩
              push_cast
              ring_nf
              linarith
          · -- side = 1: horizontal face, normal = (0, -stepY)
            have hdy : dirY ≠ 0 := by
              rcases hsd1 rfl with h' | h'
              · exact h'
              · intro hdy0
                exact hdir ⟨h', hdy0⟩
            simp only [if_neg (by omega : ¬ (1 : ℕ) = 0)]
            rcases lt_or_ge dirY 0 with hlt | hge
            · simp only [if_pos hlt]
              refine ⟨Or.inr (Or.inr (Or.inl (by norm_num [Pt.mk.injEq]))), ?_,
                by trivial, by trivial, htile⟩
              push_cast
              ring_nf
              linarith
            · have hgt : 0 < dirY := lt_of_le_of_ne hge (Ne.symm hdy)
              simp only [if_neg (not_lt.mpr hge)]
              refine ⟨Or.inr (Or.inr (Or.inr (by norm_num [Pt.mk.injEq]))), ?_,
                by trivial, by trivial, htile⟩
              push_cast
              ring_nf
              linarith

/-- Witness for claim C6: the ray from `(128, 192)` in direction `(1, 0)` on
`levelC` hits tile code 5 at point `(384, 192)`, distance 256, with normal
`(-1, 0)` facing the origin. -/
theorem C6_model_hit_contract_witness :
    (hitG.normal = ⟨1, 0⟩ ∨ hitG.normal = ⟨-1, 0⟩ ∨
      hitG.normal = ⟨0, 1⟩ ∨ hitG.normal = ⟨0, -1⟩) ∧
    hitG.normal.x * 1 + hitG.normal.y * 0 < 0 ∧
    hitG.point.x = 128 + hitG.distance * 1 ∧
    hitG.point.y = 192 + hitG.distance * 0 ∧
    0 < hitG.tileCode :=
  C6_model_hit_contract levelC 128 128 192 1 0 0 20 hitG
    (by with_unfolding_all decide) (by with_unfolding_all rfl)

/-- Claim C7, failing input: two collectibles both in view at distances 64
and 160, listed nearer-first.  The emitted sprite draw order is exactly list
order — the sprite at distance 64 is drawn before the sprite at distance 160
— so the farther sprite is drawn after (and over) the nearer one,
contradicting the claimed back-to-front ordering. -/
theorem C7_sprites_drawn_in_list_order :
    (spriteDrawOrder envC7 1000 60 ⟨192, 192⟩ 0 640 320
        [⟨256, 192, 0⟩, ⟨352, 192, 1⟩] []).map SpriteDraw.dist = [64, 160] ∧
    (64 : ℚ) < 160 := by
  constructor
  · have h1 : isInView envC7 1000 60 ⟨256, 192⟩ ⟨192, 192⟩ 0 640 320 =
        ⟨true, 320, 50⟩ := by
      simp only [isInView, envC7, sqrtTbl]
      norm_num
    have h2 : isInView envC7 1000 60 ⟨352, 192⟩ ⟨192, 192⟩ 0 640 320 =
        ⟨true, 320, 30⟩ := by
      simp only [isInView, envC7, sqrtTbl]
      norm_num
    have hd1 : spriteDistance envC7 ⟨256, 192⟩ ⟨192, 192⟩ = 64 := by
      norm_num [spriteDistance, envC7, sqrtTbl]
    have hd2 : spriteDistance envC7 ⟨352, 192⟩ ⟨192, 192⟩ = 160 := by
      norm_num [spriteDistance, envC7, sqrtTbl]
    simp only [spriteDrawOrder, renderCollectibles, renderPlayers,
      List.filterMap,
      show envC7.collectiblesFrame 0 = some frA from rfl,
      show envC7.collectiblesFrame 1 = some frA from rfl,
      h1, h2, hd1, hd2]
    simp
  · norm_num

/-- Claim C8: the per-column wall pass casts one ray per screen column at
angles linearly interpolated from `viewerAngle - fov/2` in steps of
`fov / screenWidth`, and every drawn wall strip's height equals
`screenHeight` divided by the fisheye-corrected distance — the raw hit
distance times `cos(rayAngle - viewerAngle)` — clamped to the screen height;
conversely every column whose ray hits (and whose tile frame exists) gets a
strip.  `cosF` is the cosine oracle; evenness of cosine is the hypothesis
linking `cos(viewerAngle - rayAngle)` as computed to the claim's
`cos(rayAngle - viewerAngle)`. -/
theorem C8_wall_columns (env : RenderEnv) (viewDistance viewAngle : ℚ)
    (W : ℕ) (H : ℚ) (pos : Pt) (pangle : ℚ)
    (heven : ∀ q, env.cosF (-q) = env.cosF q) :
    (∀ s ∈ wallPass env viewDistance viewAngle W H pos pangle,
        s.col < W ∧
        s.rayAngle = pangle - viewAngle * (env.piQ / 180) / 2 +
          (s.col : ℚ) * (viewAngle * (env.piQ / 180) / (W : ℚ)) ∧
        s.height = min (H / ((env.raycast pos
            ⟨env.cosF s.rayAngle, env.sinF s.rayAngle⟩
            (viewDistance / env.tileSize)).distance *
          env.cosF (s.rayAngle - pangle))) H) ∧
    (∀ k : ℕ, k < W →
        ∀ (hret : SpecRaycastHit) (frame : Frame),
          (env.raycast pos
            ⟨env.cosF (pangle - viewAngle * (env.piQ / 180) / 2 +
                (k : ℚ) * (viewAngle * (env.piQ / 180) / (W : ℚ))),
             env.sinF (pangle - viewAngle * (env.piQ / 180) / 2 +
                (k : ℚ) * (viewAngle * (env.piQ / 180) / (W : ℚ)))⟩
            (viewDistance / env.tileSize)).hit = some hret →
          env.tilesFrame hret.tileCode = some frame →
          ∃ s ∈ wallPass env viewDistance viewAngle W H pos pangle,
            s.col = k) := by
  constructor
  · intro s hs
    obtain ⟨k, hk, heq⟩ := List.mem_filterMap.mp hs
    have hkW : k < W := List.mem_range.mp hk
    simp only [wallStrip] at heq
    cases hray : (env.raycast pos
        ⟨env.cosF (pangle - viewAngle * (env.piQ / 180) / 2 +
            (k : ℚ) * (viewAngle * (env.piQ / 180) / (W : ℚ))),
         env.sinF (pangle - viewAngle * (env.piQ / 180) / 2 +
            (k : ℚ) * (viewAngle * (env.piQ / 180) / (W : ℚ)))⟩
        (viewDistance / env.tileSize)).hit with
    | none => rw [hray] at heq; exact Option.noConfusion heq
    | some hr =>
        rw [hray] at heq
        dsimp only at heq
        cases hframe : env.tilesFrame hr.tileCode with
        | none => rw [hframe] at heq; exact Option.noConfusion heq
        | some frame =>
            rw [hframe] at heq
            obtain rfl := Option.some_inj.mp heq
            refine ⟨hkW, rfl, ?_⟩
            dsimp only
            rw [← neg_sub (pangle - viewAngle * (env.piQ / 180) / 2 +
                (k : ℚ) * (viewAngle * (env.piQ / 180) / (W : ℚ))) pangle,
              heven]
  · intro k hkW hret frame hhit hframe
    have hstrip : ∃ s0, wallStrip env viewDistance viewAngle W H pos pangle k =
        some s0 ∧ s0.col = k := by
      simp only [wallStrip]
      rw [hhit]
      dsimp only
      rw [hframe]
      exact ⟨_, rfl, rfl⟩
    obtain ⟨s0, hs0, hcol⟩ := hstrip
    exact ⟨s0, List.mem_filterMap.mpr ⟨k, List.mem_range.mpr hkW, hs0⟩, hcol⟩

/-- Witness for claim C8 with a concrete renderer environment (two columns,
constant cosine oracle, every cast hitting at distance 2). -/
theorem C8_wall_columns_witness :
    (∀ s ∈ wallPass envC8 1000 60 2 320 ⟨192, 192⟩ 0,
        s.col < 2 ∧
        s.rayAngle = 0 - 60 * (envC8.piQ / 180) / 2 +
          (s.col : ℚ) * (60 * (envC8.piQ / 180) / (2 : ℚ)) ∧
        s.height = min (320 / ((envC8.raycast ⟨192, 192⟩
            ⟨envC8.cosF s.rayAngle, envC8.sinF s.rayAngle⟩
            (1000 / envC8.tileSize)).distance *
          envC8.cosF (s.rayAngle - 0))) 320) ∧
    (∀ k : ℕ, k < 2 →
        ∀ (hret : SpecRaycastHit) (frame : Frame),
          (envC8.raycast ⟨192, 192⟩
            ⟨envC8.cosF (0 - 60 * (envC8.piQ / 180) / 2 +
                (k : ℚ) * (60 * (envC8.piQ / 180) / (2 : ℚ))),
             envC8.sinF (0 - 60 * (envC8.piQ / 180) / 2 +
                (k : ℚ) * (60 * (envC8.piQ / 180) / (2 : ℚ)))⟩
            (1000 / envC8.tileSize)).hit = some hret →
          envC8.tilesFrame hret.tileCode = some frame →
          ∃ s ∈ wallPass envC8 1000 60 2 320 ⟨192, 192⟩ 0, s.col = k) :=
  C8_wall_columns envC8 1000 60 2 320 ⟨192, 192⟩ 0 (fun _ => rfl)

/-- Claim C9: for any origin whose containing tile is inside the grid and any
direction, the DDA loop of `castRay` terminates within `width + height`
steps (the fuel is never exhausted), and on an all-open grid (every tile code
0) `castRay` reports a miss (`undefined`, embedded as `some none`) — no hit
and no infinite loop; any traversal that leaves the grid bounds reports the
miss. -/
theorem C9_dda_terminates_and_misses (level : List (List ℤ)) (tileSize : ℚ)
    (x y dirX dirY rayLength : ℚ) (fuel : ℕ)
    (hx0 : 0 ≤ ⌊x / tileSize⌋)
    (hxw : ⌊x / tileSize⌋ < ((level.headD []).length : ℤ))
    (hy0 : 0 ≤ ⌊y / tileSize⌋)
    (hyh : ⌊y / tileSize⌋ < (level.length : ℤ))
    (hfuel : (level.headD []).length + level.length ≤ fuel) :
    castRayDda level tileSize x y dirX dirY rayLength fuel ≠ none ∧
    ((∀ row ∈ level, ∀ t ∈ row, t = 0) →
        castRayDda level tileSize x y dirX dirY rayLength fuel = some none) := by
  have hsx : (if dirX < 0 then (-1 : ℤ) else 1) = 1 ∨
      (if dirX < 0 then (-1 : ℤ) else 1) = -1 := by
    split <;> simp
  have hsy : (if dirY < 0 then (-1 : ℤ) else 1) = 1 ∨
      (if dirY < 0 then (-1 : ℤ) else 1) = -1 := by
    split <;> simp
  have hmb : ddaMeasure ((level.headD []).length : ℤ) (level.length : ℤ)
      (if dirX < 0 then (-1 : ℤ) else 1) (if dirY < 0 then (-1 : ℤ) else 1)
      ⌊x / tileSize⌋ ⌊y / tileSize⌋ ≤ fuel := by
    unfold ddaMeasure
    rcases hsx with h1 | h1 <;> rcases hsy with h2 | h2 <;>
      rw [h1, h2] <;>
      simp only [if_pos (show ((-1 : ℤ) < 0) by norm_num),
        if_neg (show ¬((1 : ℤ) < 0) by norm_num)] <;> omega
  constructor
  · simp only [castRayDda]
    cases hd : ddaLoop level (mkDelta dirX) (mkDelta dirY)
        (if dirX < 0 then (-1 : ℤ) else 1) (if dirY < 0 then (-1 : ℤ) else 1)
        fuel
        (if dirX < 0 then mkSideDist (x / tileSize - ⌊x / tileSize⌋) (mkDelta dirX)
          else mkSideDist ((⌊x / tileSize⌋ : ℚ) + 1 - x / tileSize) (mkDelta dirX))
        (if dirY < 0 then mkSideDist (y / tileSize - ⌊y / tileSize⌋) (mkDelta dirY)
          else mkSideDist ((⌊y / tileSize⌋ : ℚ) + 1 - y / tileSize) (mkDelta dirY))
        ⌊x / tileSize⌋ ⌊y / tileSize⌋ with
    | none =>
        exact absurd hd
          (ddaLoop_no_fuel_out level _ _ hsx hsy fuel _ _ _ _ hx0 hxw hy0 hyh hmb)
    | some r => cases r <;> simp
  · intro hopen
    have hmiss := ddaLoop_allOpen_miss level (mkDelta dirX) (mkDelta dirY)
      hopen hsx hsy fuel
      (if dirX < 0 then mkSideDist (x / tileSize - ⌊x / tileSize⌋) (mkDelta dirX)
        else mkSideDist ((⌊x / tileSize⌋ : ℚ) + 1 - x / tileSize) (mkDelta dirX))
      (if dirY < 0 then mkSideDist (y / tileSize - ⌊y / tileSize⌋) (mkDelta dirY)
        else mkSideDist ((⌊y / tileSize⌋ : ℚ) + 1 - y / tileSize) (mkDelta dirY))
      ⌊x / tileSize⌋ ⌊y / tileSize⌋ hx0 hxw hy0 hyh hmb
    simp only [castRayDda, hmiss]

/-- Witness for claim C9 on a 2×2 all-open grid. -/
theorem C9_dda_terminates_and_misses_witness :
    castRayDda [[0, 0], [0, 0]] 1 (1/2) (1/2) 1 0 1000 4 ≠ none ∧
    castRayDda [[0, 0], [0, 0]] 1 (1/2) (1/2) 1 0 1000 4 = some none :=
  ⟨(C9_dda_terminates_and_misses [[0, 0], [0, 0]] 1 (1/2) (1/2) 1 0 1000 4
      (by with_unfolding_all decide) (by with_unfolding_all decide)
      (by with_unfolding_all decide) (by with_unfolding_all decide)
      (by decide)).1,
   (C9_dda_terminates_and_misses [[0, 0], [0, 0]] 1 (1/2) (1/2) 1 0 1000 4
      (by with_unfolding_all decide) (by with_unfolding_all decide)
      (by with_unfolding_all decide) (by with_unfolding_all decide)
      (by decide)).2 (by decide)⟩

/-- Claim C10: when `removeClient` handles a disconnect and at least one
other client remains and a level exists, only the clients list and the
level's players roster change — the grid, pickup list, spawn-point pool and
spawn points are unchanged — and the roster entries removed are exactly
those whose name equals the disconnecting client's display name, so two
roster entries bearing the same display name are both removed by the single
disconnect. -/
theorem C10_removeClient_frame (s : ServerState) (ws : Client)
    (lvl : LevelData) (n : String)
    (hlvl : s.currentLevel = some lvl)
    (hname : ws.name = some n)
    (hrem : removeFirstClient s.clients ws.id ≠ []) :
    (removeClient s ws).clients = removeFirstClient s.clients ws.id ∧
    (removeClient s ws).spawnPointPool = s.spawnPointPool ∧
    ((removeClient s ws).currentLevel.map LevelData.walls = some lvl.walls) ∧
    ((removeClient s ws).currentLevel.map LevelData.pickups =
        some lvl.pickups) ∧
    ((removeClient s ws).currentLevel.map LevelData.spawnPoints =
        some lvl.spawnPoints) ∧
    ((removeClient s ws).currentLevel.map LevelData.players =
        some (lvl.players.filter (fun p => nameDiffers p.name ws.name))) ∧
    (∀ p, p ∈ lvl.players.filter (fun p => nameDiffers p.name ws.name) ↔
        p ∈ lvl.players ∧ p.name ≠ n) ∧
    (∀ p ∈ lvl.players, p.name = n →
        p ∉ lvl.players.filter (fun p => nameDiffers p.name ws.name)) := by
  have hne : (removeFirstClient s.clients ws.id).isEmpty = false := by
    rcases h : removeFirstClient s.clients ws.id with _ | _
    · exact absurd h hrem
    · rfl
  refine ⟨?_, ?_, ?_, ?_, ?_, ?_, ?_, ?_⟩
  · simp [removeClient, hlvl, hne]
  · simp [removeClient, hlvl, hne]
  · simp [removeClient, hlvl, hne]
  · simp [removeClient, hlvl, hne]
  · simp [removeClient, hlvl, hne]
  · simp [removeClient, hlvl, hne]
  · intro p
    simp [List.mem_filter, nameDiffers, hname]
  · intro p hp heq
    simp [List.mem_filter, nameDiffers, hname, heq]

/-- Witness for claim C10: removing client "a" (named "dup") deletes both
roster entries named "dup", keeps the third entry, and leaves pickups and
the pool unchanged. -/
theorem C10_removeClient_frame_witness :
    ((removeClient s10 wsX).currentLevel.map LevelData.players =
        some [⟨3, 3, "x"⟩]) ∧
    (removeClient s10 wsX).spawnPointPool = s10.spawnPointPool ∧
    ((removeClient s10 wsX).currentLevel.map LevelData.pickups =
        some [⟨1, 2, 3⟩]) :=
  ⟨((C10_removeClient_frame s10 wsX lvl10 "dup" rfl rfl
      (by decide)).2.2.2.2.2.1).trans (by decide),
   (C10_removeClient_frame s10 wsX lvl10 "dup" rfl rfl (by decide)).2.1,
   ((C10_removeClient_frame s10 wsX lvl10 "dup" rfl rfl
      (by decide)).2.2.2.1).trans (by decide)⟩

end RC
